import Mathlib

/-!
Verification development for the Matrix-Processor repository.

The core under study is `computeMatrices` (the matrix-computation engine):
it turns parsed sheet tables, per-sheet axis selections and matrix
configurations into binary intersection matrices.  The definitions below
are a shallow embedding of that function and of the data it consumes,
translated from the JavaScript source (`computeMatrices` and the shapes
built by `processFiles`, `ColumnSelector` and `MatrixConfigurator`).
-/

namespace MatrixProc

/-- A raw cell value of a parsed sheet row: a string, a number (integers
suffice for the values under study), a boolean, or a missing cell
(JavaScript `undefined`). -/
inductive RawValue where
  | vStr (s : String)
  | vNum (n : Int)
  | vBool (b : Bool)
  | vMissing
deriving DecidableEq, Repr

/-- JavaScript truthiness of a raw cell value: `""`, `0`, `false` and
`undefined` are falsy. -/
def RawValue.falsy : RawValue → Bool
  | .vStr s => s == ""
  | .vNum n => n == 0
  | .vBool b => !b
  | .vMissing => true

/-- JavaScript `String(v)` coercion of a raw cell value. -/
def RawValue.toStr : RawValue → String
  | .vStr s => s
  | .vNum n => toString n
  | .vBool b => if b then "true" else "false"
  | .vMissing => "undefined"

/-- The characters removed by JavaScript `String.prototype.trim`:
WhiteSpace (TAB, VT, FF, SP, NBSP, ZWNBSP and the Unicode `Zs` category)
and LineTerminator (LF, CR, LS, PS). -/
def isJsWhitespace (c : Char) : Bool :=
  c.toNat == 0x9 || c.toNat == 0xA || c.toNat == 0xB || c.toNat == 0xC ||
  c.toNat == 0xD || c.toNat == 0x20 || c.toNat == 0xA0 || c.toNat == 0x1680 ||
  (0x2000 ≤ c.toNat && c.toNat ≤ 0x200A) || c.toNat == 0x2028 ||
  c.toNat == 0x2029 || c.toNat == 0x202F || c.toNat == 0x205F ||
  c.toNat == 0x3000 || c.toNat == 0xFEFF

/-- JavaScript `s.trim()`: strip leading and trailing whitespace. -/
def jsTrim (s : String) : String :=
  ⟨((s.data.dropWhile isJsWhitespace).reverse.dropWhile isJsWhitespace).reverse⟩

/-- One parsed sheet row: a finite map from header name to raw value
(JavaScript objects are key-unique; lookup takes the first binding). -/
abbrev Row := List (String × RawValue)

/-- JavaScript `row[col]` where `col` may be `undefined`: the property key
`undefined` is coerced to the string `"undefined"`, and reading an absent
key yields `undefined`. -/
def getProp (row : Row) (col : Option String) : RawValue :=
  (row.lookup (col.getD "undefined")).getD .vMissing

/-- `String(row[col] || '').trim()` — the value used for axis membership
and cell matching: a falsy raw value is replaced by `''` before coercion. -/
def cellStr (row : Row) (col : Option String) : String :=
  let v := getProp row col
  jsTrim (if v.falsy then "" else v.toStr)

/-- A parsed sheet (`SheetTable`): name, ordered headers, ordered rows. -/
structure Sheet where
  name : String
  headers : List String
  data : List Row
deriving DecidableEq, Repr

/-- One uploaded file's parse result. -/
structure FileData where
  fileName : String
  sheets : List Sheet
deriving DecidableEq, Repr

/-- A reference to one (file, sheet) pair inside a matrix configuration. -/
structure Source where
  fileIndex : Nat
  sheetName : String
  fileName : String
deriving DecidableEq, Repr

/-- A per-(file,sheet) axis selection; any field may be unset. -/
structure ColSel where
  yAxis : Option String
  xAxis : Option String
  secondaryXAxis : Option String
deriving DecidableEq, Repr

/-- One matrix configuration (`MatrixSpec`).  The UI also stores a
`hasSecondaryX` display flag on configs, which `computeMatrices` never
reads, so it is omitted here. -/
structure Config where
  name : String
  merge : Bool
  sources : List Source
deriving DecidableEq, Repr

/-- The column-selection map, keyed by the string `` `${fileIndex}-${sheetName}` ``. -/
abbrev Selections := List (String × ColSel)

/-- The key `` `${source.fileIndex}-${source.sheetName}` ``. -/
def selKey (src : Source) : String :=
  toString src.fileIndex ++ "-" ++ src.sheetName

/-- `columnSelections[key]` with the `?.` fallback: an absent entry reads
as a selection with every field `undefined`. -/
def getSel (cs : Selections) (key : String) : ColSel :=
  (cs.lookup key).getD ⟨none, none, none⟩

/-- JavaScript truthiness of an optional string (`!!v`): `undefined`,
`null` and `""` are falsy. -/
def optTruthy : Option String → Bool
  | none => false
  | some s => !(s == "")

/-- An output matrix record. -/
structure Matrix where
  name : String
  yAxis : List String
  xAxis : List String
  data : List (List Nat)
deriving DecidableEq, Repr

/-! ### JavaScript default sort order

`Array.prototype.sort()` with no comparator compares strings by their
UTF-16 code-unit sequences, lexicographically. -/

/-- The UTF-16 encoding of one Unicode scalar value. -/
def utf16Char (c : Char) : List Nat :=
  if c.toNat < 0x10000 then [c.toNat]
  else [0xD800 + (c.toNat - 0x10000) / 0x400, 0xDC00 + (c.toNat - 0x10000) % 0x400]

/-- The UTF-16 code-unit sequence of a string. -/
def utf16 (s : String) : List Nat := (s.data.map utf16Char).flatten

/-- Lexicographic comparison of code-unit sequences. -/
def leU16 : List Nat → List Nat → Bool
  | [], _ => true
  | _ :: _, [] => false
  | a :: as, b :: bs =>
    if a < b then true else if b < a then false else leU16 as bs

/-- The JavaScript default string order (UTF-16 code-unit lexicographic). -/
def jsLE (a b : String) : Prop := leU16 (utf16 a) (utf16 b) = true

instance : DecidableRel jsLE := fun a b => decEq (leU16 (utf16 a) (utf16 b)) true

/-- `Array.from(set).sort()`: the distinct collected values, sorted by the
JavaScript default order.  (`List.dedup` keeps one copy of each value; the
subsequent sort makes the iteration order of the set irrelevant.) -/
def sortedValues (l : List String) : List String :=
  (l.dedup).insertionSort jsLE

/-! ### The engine -/

/-- The trimmed Y value of a row under a source's selection. -/
def yValOf (cs : Selections) (src : Source) (row : Row) : String :=
  cellStr row (getSel cs (selKey src)).yAxis

/-- The trimmed X value of a row under a source's selection. -/
def xValOf (cs : Selections) (src : Source) (row : Row) : String :=
  cellStr row (getSel cs (selKey src)).xAxis

/-- The trimmed secondary value of a row, or `none` (JS `null`) when the
source's secondary-axis selection is falsy
(`secondaryXCol ? String(row[secondaryXCol] || '').trim() : null`). -/
def sValOf (cs : Selections) (src : Source) (row : Row) : Option String :=
  let c := (getSel cs (selKey src)).secondaryXAxis
  if optTruthy c then some (cellStr row c) else none

/-- `if (secondaryXVal) secondaryXValues.add(secondaryXVal)`: only truthy
(non-null, non-empty) secondary values are collected. -/
def sTruthy : Option String → Option String
  | none => none
  | some v => if v = "" then none else some v

/-- `fileData[source.fileIndex]` followed by `.sheets.find(...)`: an
out-of-range file index makes the JavaScript code read `.sheets` of
`undefined`, which throws a TypeError — modelled as `Except.error`.  A
valid index whose sheet name is not found yields `ok none`. -/
def resolveSheet (fd : List FileData) (src : Source) : Except Unit (Option Sheet) :=
  match fd[src.fileIndex]? with
  | none => .error ()
  | some file => .ok (file.sheets.find? (fun s => s.name == src.sheetName))

/-- Resolve every source of a config in order, silently dropping sources
whose sheet is not found and aborting (like the thrown TypeError) on an
out-of-range file index. -/
def resolvedSheets (fd : List FileData) : List Source → Except Unit (List (Source × Sheet))
  | [] => .ok []
  | src :: rest => do
    match ← resolveSheet fd src with
    | none => resolvedSheets fd rest
    | some sheet => pure ((src, sheet) :: (← resolvedSheets fd rest))

/-- The Y values collected over a list of resolved (source, sheet) pairs:
`if (yVal) yValues.add(yVal)`. -/
def yCandidates (cs : Selections) (pairs : List (Source × Sheet)) : List String :=
  (pairs.map (fun p => (p.2.data.map (yValOf cs p.1)).filter (fun v => !(v == "")))).flatten

/-- The X values collected over a list of resolved (source, sheet) pairs. -/
def xCandidates (cs : Selections) (pairs : List (Source × Sheet)) : List String :=
  (pairs.map (fun p => (p.2.data.map (xValOf cs p.1)).filter (fun v => !(v == "")))).flatten

/-- The secondary values collected over a list of resolved pairs. -/
def sCandidates (cs : Selections) (pairs : List (Source × Sheet)) : List String :=
  (pairs.map (fun p => p.2.data.filterMap (fun row => sTruthy (sValOf cs p.1 row)))).flatten

/-- `sortedY.map(() => sortedX.map(() => 0))`. -/
def zeroGrid (ys xs : List String) : List (List Nat) :=
  ys.map (fun _ => xs.map (fun _ => 0))

/-- `data[yIdx][xIdx] = 1` (in range by construction; `List.set` out of
range is a no-op, matching the `>= 0` guard in the source). -/
def setCell (g : List (List Nat)) (i j : Nat) : List (List Nat) :=
  g.set i ((g.getD i []).set j 1)

/-- One marking step: look up both indices (`indexOf`; absent values fail
the guard — Lean's `indexOf` returns the length where JavaScript returns
`-1`, so the guard `>= 0` becomes `< length`) and set the cell. -/
def markRow (ys xs : List String) (y x : String) (g : List (List Nat)) :
    List (List Nat) :=
  if ys.indexOf y < ys.length ∧ xs.indexOf x < xs.length then
    setCell g (ys.indexOf y) (xs.indexOf x)
  else g

/-- The marking pass: over every resolved pair in order, over its rows in
order, set `(yIdx, xIdx)` for every row satisfying the branch's guard. -/
def markPairs (cs : Selections) (ys xs : List String) (cond : Source → Row → Bool)
    (pairs : List (Source × Sheet)) (g : List (List Nat)) : List (List Nat) :=
  pairs.foldl (fun g p =>
    p.2.data.foldl (fun g row =>
      if cond p.1 row then markRow ys xs (yValOf cs p.1 row) (xValOf cs p.1 row) g
      else g) g) g

/-- The guard of the unpartitioned marking passes: `if (yVal && xVal)`. -/
def condYX (cs : Selections) (src : Source) (row : Row) : Bool :=
  !(yValOf cs src row == "") && !(xValOf cs src row == "")

/-- The guard of the per-secondary-value marking passes:
`if (yVal && xVal && secondaryXVal === secX)`. -/
def condYXS (cs : Selections) (secX : String) (src : Source) (row : Row) : Bool :=
  !(yValOf cs src row == "") && !(xValOf cs src row == "") &&
    (sValOf cs src row == some secX)

/-- The marking pass with no secondary filter. -/
def markAll (cs : Selections) (ys xs : List String)
    (pairs : List (Source × Sheet)) (g : List (List Nat)) : List (List Nat) :=
  markPairs cs ys xs (condYX cs) pairs g

/-- The marking pass for one secondary value `secX`. -/
def markSec (cs : Selections) (ys xs : List String) (secX : String)
    (pairs : List (Source × Sheet)) (g : List (List Nat)) : List (List Nat) :=
  markPairs cs ys xs (condYXS cs secX) pairs g

/-- The sorted Y axis of a merge-mode config (union over resolved pairs). -/
def mergeYAxis (cs : Selections) (pairs : List (Source × Sheet)) : List String :=
  sortedValues (yCandidates cs pairs)

/-- The sorted X axis of a merge-mode config. -/
def mergeXAxis (cs : Selections) (pairs : List (Source × Sheet)) : List String :=
  sortedValues (xCandidates cs pairs)

/-- `hasSecondaryX`: whether any source of the config (resolved or not) has
a truthy secondary-axis selection. -/
def mergeHasSec (cs : Selections) (cfg : Config) : Bool :=
  cfg.sources.any (fun src => optTruthy (getSel cs (selKey src)).secondaryXAxis)

/-- `sortedSecondaryX` of a merge-mode config (`null` is modelled as `[]`;
the source only tests `length > 0`). -/
def mergeSecX (cs : Selections) (cfg : Config) (pairs : List (Source × Sheet)) :
    List String :=
  if mergeHasSec cs cfg then sortedValues (sCandidates cs pairs) else []

/-- The matrices of one merge-mode config, given its resolved pairs
(lines 149–258 of the source after both passes over `config.sources`). -/
def mergeMatrices (cs : Selections) (cfg : Config)
    (pairs : List (Source × Sheet)) : List Matrix :=
  if (mergeSecX cs cfg pairs).length > 0 then
    (mergeSecX cs cfg pairs).map (fun secX =>
      { name := cfg.name ++ " - " ++ secX
        yAxis := mergeYAxis cs pairs
        xAxis := mergeXAxis cs pairs
        data := markSec cs (mergeYAxis cs pairs) (mergeXAxis cs pairs) secX pairs
          (zeroGrid (mergeYAxis cs pairs) (mergeXAxis cs pairs)) })
  else
    [{ name := cfg.name
       yAxis := mergeYAxis cs pairs
       xAxis := mergeXAxis cs pairs
       data := markAll cs (mergeYAxis cs pairs) (mergeXAxis cs pairs) pairs
         (zeroGrid (mergeYAxis cs pairs) (mergeXAxis cs pairs)) }]

/-- The merge branch of `computeMatrices` for one config.  The marking
passes of the source re-resolve each source; resolution is pure and the
collection pass already succeeded, so the resolved pairs are reused. -/
def processMerge (fd : List FileData) (cs : Selections) (cfg : Config) :
    Except Unit (List Matrix) := do
  let pairs ← resolvedSheets fd cfg.sources
  pure (mergeMatrices cs cfg pairs)

/-- The sorted Y axis of one resolved source (independent mode). -/
def sourceYAxis (cs : Selections) (src : Source) (sheet : Sheet) : List String :=
  sortedValues (yCandidates cs [(src, sheet)])

/-- The sorted X axis of one resolved source (independent mode). -/
def sourceXAxis (cs : Selections) (src : Source) (sheet : Sheet) : List String :=
  sortedValues (xCandidates cs [(src, sheet)])

/-- `sortedSecondaryX` of one resolved source: empty when the secondary
selection is falsy (`null` is modelled as `[]`). -/
def sourceSecX (cs : Selections) (src : Source) (sheet : Sheet) : List String :=
  if optTruthy (getSel cs (selKey src)).secondaryXAxis then
    sortedValues (sCandidates cs [(src, sheet)])
  else []

/-- The matrices of one resolved source in independent mode
(lines 266–338 of the source). -/
def sourceMatrices (cs : Selections) (src : Source) (sheet : Sheet) : List Matrix :=
  if (sourceSecX cs src sheet).length > 0 then
    (sourceSecX cs src sheet).map (fun secX =>
      { name := src.fileName ++ " - " ++ src.sheetName ++ " - " ++ secX
        yAxis := sourceYAxis cs src sheet
        xAxis := sourceXAxis cs src sheet
        data := markSec cs (sourceYAxis cs src sheet) (sourceXAxis cs src sheet)
          secX [(src, sheet)]
          (zeroGrid (sourceYAxis cs src sheet) (sourceXAxis cs src sheet)) })
  else
    [{ name := src.fileName ++ " - " ++ src.sheetName
       yAxis := sourceYAxis cs src sheet
       xAxis := sourceXAxis cs src sheet
       data := markAll cs (sourceYAxis cs src sheet) (sourceXAxis cs src sheet)
         [(src, sheet)]
         (zeroGrid (sourceYAxis cs src sheet) (sourceXAxis cs src sheet)) }]

/-- The independent branch of `computeMatrices` for one source. -/
def processSource (fd : List FileData) (cs : Selections) (src : Source) :
    Except Unit (List Matrix) := do
  match ← resolveSheet fd src with
  | none => pure []
  | some sheet => pure (sourceMatrices cs src sheet)

/-- The independent branch: each source's matrices in source order. -/
def processSources (fd : List FileData) (cs : Selections) :
    List Source → Except Unit (List Matrix)
  | [] => .ok []
  | src :: rest => do
    pure ((← processSource fd cs src) ++ (← processSources fd cs rest))

/-- One config's contribution to the output sequence. -/
def processConfig (fd : List FileData) (cs : Selections) (cfg : Config) :
    Except Unit (List Matrix) :=
  if cfg.merge then processMerge fd cs cfg
  else processSources fd cs cfg.sources

/-- The matrix-computation engine: `computeMatrices(fileData, selectedTabs,
columnSelections, matrixConfig)`.  The `selectedTabs` parameter of the
source function is never read by it and is omitted.  A thrown TypeError
(out-of-range file index, see `resolveSheet`) is `Except.error`. -/
def computeMatrices (fd : List FileData) (cs : Selections) :
    List Config → Except Unit (List Matrix)
  | [] => .ok []
  | cfg :: rest => do
    pure ((← processConfig fd cs cfg) ++ (← computeMatrices fd cs rest))

/-! ### Order theory of the JavaScript string order -/

/-- Entry `(i, j)` of a grid (`0` outside the grid). -/
def cellAt (g : List (List Nat)) (i j : Nat) : Nat := (g.getD i []).getD j 0

/-- The grid-shape invariant of the spec. -/
def GoodDims (ys xs : List String) (g : List (List Nat)) : Prop :=
  g.length = ys.length ∧ ∀ r ∈ g, r.length = xs.length

/-- Whether some row of the resolved pair `p` satisfies the guard and maps
to cell `(i, j)`. -/
def pairHits (cs : Selections) (ys xs : List String) (cond : Source → Row → Bool)
    (i j : Nat) (p : Source × Sheet) : Bool :=
  p.2.data.any (fun row =>
    cond p.1 row && (ys.indexOf (yValOf cs p.1 row) == i) &&
      (xs.indexOf (xValOf cs p.1 row) == j) &&
      decide (yValOf cs p.1 row ∈ ys) && decide (xValOf cs p.1 row ∈ xs))

/-- Scenario A of the spec: three rows over columns Emp and Role. -/
def sheetA : Sheet :=
  ⟨"Sheet1", ["Emp", "Role"],
    [[("Emp", .vStr "Alice"), ("Role", .vStr "Admin")],
     [("Emp", .vStr "Bob"), ("Role", .vStr "Admin")],
     [("Emp", .vStr "Alice"), ("Role", .vStr "Editor")]]⟩

def fdA : List FileData := [⟨"file1.xlsx", [sheetA]⟩]

def srcA : Source := ⟨0, "Sheet1", "file1.xlsx"⟩

def csA : Selections := [("0-Sheet1", ⟨some "Emp", some "Role", none⟩)]

def cfgA : Config := ⟨"MatrixA", false, [srcA]⟩

/-- All entries of a grid are `0` or `1`. -/
def Cells01 (g : List (List Nat)) : Prop :=
  ∀ r ∈ g, ∀ v ∈ r, v = 0 ∨ v = 1

/-- The per-matrix shape/content invariant of the spec. -/
def MatrixOK (m : Matrix) : Prop :=
  m.data.length = m.yAxis.length ∧ (∀ r ∈ m.data, r.length = m.xAxis.length) ∧
    ∀ r ∈ m.data, ∀ v ∈ r, v = 0 ∨ v = 1

/-- The Scenario A output matrix. -/
def matA : Matrix :=
  ⟨"file1.xlsx - Sheet1", ["Alice", "Bob"], ["Admin", "Editor"], [[1, 1], [1, 0]]⟩

/-- Code-point lexicographic comparison — the order named by the spec
(`leU16` is plain lexicographic comparison of `List Nat`, applied here to
code points rather than UTF-16 code units). -/
def cpLE (a b : String) : Bool :=
  leU16 (a.data.map Char.toNat) (b.data.map Char.toNat)

/-- A sheet whose Y values sort differently under the two orders: the
emoji U+1F600 encodes as the surrogate pair D83D DE00, so JavaScript sorts
it before U+FFEE although its code point is larger. -/
def sheetU : Sheet :=
  ⟨"S", ["Emp", "Role"],
    [[("Emp", .vStr "￮"), ("Role", .vStr "A")],
     [("Emp", .vStr "😀"), ("Role", .vStr "A")]]⟩

def fdU : List FileData := [⟨"u.xlsx", [sheetU]⟩]

def srcU : Source := ⟨0, "S", "u.xlsx"⟩

def csU : Selections := [("0-S", ⟨some "Emp", some "Role", none⟩)]

def cfgU : Config := ⟨"U", false, [srcU]⟩

def matU : Matrix := ⟨"u.xlsx - S", ["😀", "￮"], ["A"], [[1], [1]]⟩

/-- The axis invariant: no empty labels, no duplicates, sorted in the
JavaScript (UTF-16 code-unit) order. -/
def AxesOK (m : Matrix) : Prop :=
  ("" ∉ m.yAxis ∧ m.yAxis.Nodup ∧ m.yAxis.Sorted jsLE) ∧
  ("" ∉ m.xAxis ∧ m.xAxis.Nodup ∧ m.xAxis.Sorted jsLE)

/-- A sheet whose only Y value is the number `0`: JavaScript `0 || ''`
yields `''`, so the row contributes no Y label. -/
def sheetZ : Sheet :=
  ⟨"S", ["Emp", "Role"], [[("Emp", .vNum 0), ("Role", .vStr "Admin")]]⟩

def fdZ : List FileData := [⟨"z.xlsx", [sheetZ]⟩]

def srcZ : Source := ⟨0, "S", "z.xlsx"⟩

def csZ : Selections := [("0-S", ⟨some "Emp", some "Role", none⟩)]

def cfgZ : Config := ⟨"Z", false, [srcZ]⟩

def matZ : Matrix := ⟨"z.xlsx - S", [], ["Admin"], []⟩

/-- A sheet with a column literally named "undefined": with no Y-axis
selection, JavaScript evaluates `row[undefined]`, and property keys are
coerced to strings, so the `"undefined"` column is read. -/
def sheetN : Sheet :=
  ⟨"S", ["undefined", "B"], [[("undefined", .vStr "P"), ("B", .vStr "Q")]]⟩

def fdN : List FileData := [⟨"n.xlsx", [sheetN]⟩]

def srcN : Source := ⟨0, "S", "n.xlsx"⟩

def csN : Selections := [("0-S", ⟨none, some "B", none⟩)]

def cfgN : Config := ⟨"N", false, [srcN]⟩

def matN : Matrix := ⟨"n.xlsx - S", ["P"], ["Q"], [[1]]⟩

/-- Witness for C6: Scenario A's sheet with a selection naming a column
absent from every row. -/
def csM : Selections := [("0-Sheet1", ⟨some "Missing", some "Role", none⟩)]

/-- A source with an out-of-range file index. -/
def srcBad : Source := ⟨5, "Sheet1", "ghost.xlsx"⟩

def cfgE : Config := ⟨"E", false, [srcA, srcBad]⟩

def cfgEonly : Config := ⟨"E", false, [srcA]⟩

/-- A source whose file index is valid but whose sheet name is stale. -/
def srcGhost : Source := ⟨0, "Ghost", "file1.xlsx"⟩

/-- The default used when indexing into matrix lists. -/
def defMatrix : Matrix := ⟨"", [], [], []⟩

/-- Scenario-B style input for the C2 witness: one source, merge mode,
secondary column Dept. -/
def sheetB : Sheet :=
  ⟨"SheetB", ["Emp", "Role", "Dept"],
    [[("Emp", .vStr "Alice"), ("Role", .vStr "Admin"), ("Dept", .vStr "HR")],
     [("Emp", .vStr "Bob"), ("Role", .vStr "Admin"), ("Dept", .vStr "HR")],
     [("Emp", .vStr "Alice"), ("Role", .vStr "Editor"), ("Dept", .vStr "Eng")]]⟩

def fdB : List FileData := [⟨"b.xlsx", [sheetB]⟩]

def srcB : Source := ⟨0, "SheetB", "b.xlsx"⟩

def csB : Selections := [("0-SheetB", ⟨some "Emp", some "Role", some "Dept"⟩)]

def cfgB : Config := ⟨"M", true, [srcB]⟩

def pairsB : List (Source × Sheet) := [(srcB, sheetB)]

/-- Two sheets equal up to a permutation of their rows. -/
def SheetPerm (s s' : Sheet) : Prop :=
  s.name = s'.name ∧ s.headers = s'.headers ∧ List.Perm s.data s'.data

/-- Two parsed files equal up to row permutations of their sheets. -/
def FilePerm (f f' : FileData) : Prop :=
  f.fileName = f'.fileName ∧ List.Forall₂ SheetPerm f.sheets f'.sheets

/-- Two file lists equal up to row permutations. -/
def FilesPerm (fd fd' : List FileData) : Prop := List.Forall₂ FilePerm fd fd'

/-- Two resolved pairs with the same source and row-permuted sheets. -/
def PairPerm (p p' : Source × Sheet) : Prop := p.1 = p'.1 ∧ SheetPerm p.2 p'.2

/-- Scenario A with its rows reversed. -/
def sheetA2 : Sheet :=
  ⟨"Sheet1", ["Emp", "Role"],
    [[("Emp", .vStr "Alice"), ("Role", .vStr "Editor")],
     [("Emp", .vStr "Bob"), ("Role", .vStr "Admin")],
     [("Emp", .vStr "Alice"), ("Role", .vStr "Admin")]]⟩

def fdA2 : List FileData := [⟨"file1.xlsx", [sheetA2]⟩]

theorem leU16_total (x y : List Nat) : leU16 x y = true ∨ leU16 y x = true := by
  induction x generalizing y with
  | nil => left; rfl
  | cons a as ih =>
    cases y with
    | nil => right; rfl
    | cons b bs =>
      simp only [leU16]
      rcases Nat.lt_trichotomy a b with h | h | h
      · left; simp [h]
      · subst h
        simp only [Nat.lt_irrefl, if_false]
        exact ih bs
      · right; simp [h]

theorem leU16_trans (x y z : List Nat) (hxy : leU16 x y = true)
    (hyz : leU16 y z = true) : leU16 x z = true := by
  induction x generalizing y z with
  | nil => rfl
  | cons a as ih =>
    cases y with
    | nil => simp [leU16] at hxy
    | cons b bs =>
      cases z with
      | nil => simp [leU16] at hyz
      | cons c cs =>
        simp only [leU16] at hxy hyz ⊢
        rcases Nat.lt_trichotomy a b with h1 | h1 | h1
        · rcases Nat.lt_trichotomy b c with h2 | h2 | h2
          · simp [Nat.lt_trans h1 h2]
          · subst h2; simp [h1]
          · rw [if_neg (by omega), if_pos h2] at hyz; exact absurd hyz (by simp)
        · subst h1
          rw [if_neg (Nat.lt_irrefl a), if_neg (Nat.lt_irrefl a)] at hxy
          rcases Nat.lt_trichotomy a c with h2 | h2 | h2
          · simp [h2]
          · subst h2
            rw [if_neg (Nat.lt_irrefl a), if_neg (Nat.lt_irrefl a)] at hyz ⊢
            exact ih bs cs hxy hyz
          · rw [if_neg (by omega), if_pos h2] at hyz; exact absurd hyz (by simp)
        · rw [if_neg (by omega), if_pos h1] at hxy; exact absurd hxy (by simp)

theorem leU16_antisymm (x y : List Nat) (hxy : leU16 x y = true)
    (hyx : leU16 y x = true) : x = y := by
  induction x generalizing y with
  | nil =>
    cases y with
    | nil => rfl
    | cons b bs => simp [leU16] at hyx
  | cons a as ih =>
    cases y with
    | nil => simp [leU16] at hxy
    | cons b bs =>
      simp only [leU16] at hxy hyx
      rcases Nat.lt_trichotomy a b with h | h | h
      · rw [if_neg (by omega), if_pos h] at hyx; exact absurd hyx (by simp)
      · subst h
        rw [if_neg (Nat.lt_irrefl a), if_neg (Nat.lt_irrefl a)] at hxy hyx
        exact congrArg (a :: ·) (ih bs hxy hyx)
      · rw [if_neg (by omega), if_pos h] at hxy; exact absurd hxy (by simp)

theorem utf16Char_ne_nil (c : Char) : utf16Char c ≠ [] := by
  unfold utf16Char
  split <;> simp

/-- The range of scalar values a `Char` may hold. -/
theorem char_toNat_valid (c : Char) :
    c.toNat < 0xD800 ∨ (0xDFFF < c.toNat ∧ c.toNat < 0x110000) := by
  rcases c.valid with h | ⟨h1, h2⟩
  · left; exact h
  · right; exact ⟨h1, h2⟩

theorem char_toNat_inj {a b : Char} (h : a.toNat = b.toNat) : a = b :=
  Char.ext (UInt32.toNat.inj h)

/-- UTF-16 is a prefix-free code on scalar values: concatenated encodings
decode uniquely. -/
theorem utf16_chars_inj : ∀ (l1 l2 : List Char),
    (l1.map utf16Char).flatten = (l2.map utf16Char).flatten → l1 = l2
  | [], [], _ => rfl
  | [], c :: cs, h => by
    exfalso
    simp only [List.map_nil, List.flatten_nil, List.map_cons, List.flatten_cons] at h
    exact utf16Char_ne_nil c (List.append_eq_nil.mp h.symm).1
  | c :: cs, [], h => by
    exfalso
    simp only [List.map_nil, List.flatten_nil, List.map_cons, List.flatten_cons] at h
    exact utf16Char_ne_nil c (List.append_eq_nil.mp h).1
  | a :: as, b :: bs, h => by
    simp only [List.map_cons, List.flatten_cons] at h
    have va := char_toNat_valid a
    have vb := char_toNat_valid b
    unfold utf16Char at h
    by_cases ha : a.toNat < 0x10000 <;> by_cases hb : b.toNat < 0x10000 <;>
      simp only [ha, hb, if_true, if_false, List.cons_append, List.nil_append,
        if_pos, if_neg, List.cons.injEq] at h
    · obtain ⟨h1, h2⟩ := h
      have : a = b := char_toNat_inj h1
      subst this
      exact congrArg (a :: ·) (utf16_chars_inj as bs h2)
    · omega
    · omega
    · obtain ⟨h1, h2, h3⟩ := h
      have : a = b := char_toNat_inj (by omega)
      subst this
      exact congrArg (a :: ·) (utf16_chars_inj as bs h3)

theorem utf16_inj {s t : String} (h : utf16 s = utf16 t) : s = t := by
  cases s with
  | mk ds =>
    cases t with
    | mk dt => exact congrArg String.mk (utf16_chars_inj ds dt h)

instance : IsTotal String jsLE := ⟨fun _ _ => leU16_total _ _⟩

instance : IsTrans String jsLE := ⟨fun _ _ _ hab hbc => leU16_trans _ _ _ hab hbc⟩

instance : IsAntisymm String jsLE :=
  ⟨fun _ _ h1 h2 => utf16_inj (leU16_antisymm _ _ h1 h2)⟩

/-! ### Properties of `sortedValues` -/

theorem sortedValues_sorted (l : List String) :
    (sortedValues l).Sorted jsLE :=
  List.sorted_insertionSort jsLE _

theorem sortedValues_perm (l : List String) : List.Perm (sortedValues l) l.dedup :=
  List.perm_insertionSort jsLE _

theorem sortedValues_nodup (l : List String) : (sortedValues l).Nodup :=
  ((sortedValues_perm l).nodup_iff).mpr (List.nodup_dedup l)

theorem mem_sortedValues {a : String} {l : List String} :
    a ∈ sortedValues l ↔ a ∈ l := by
  rw [(sortedValues_perm l).mem_iff, List.mem_dedup]

/-- The canonicalisation property: the sorted distinct values depend only
on the multiset (in fact the set) of collected values. -/
theorem sortedValues_eq_of_perm {l₁ l₂ : List String} (h : List.Perm l₁ l₂) :
    sortedValues l₁ = sortedValues l₂ :=
  List.eq_of_perm_of_sorted
    (((sortedValues_perm l₁).trans h.dedup).trans (sortedValues_perm l₂).symm)
    (sortedValues_sorted l₁) (sortedValues_sorted l₂)

/-! ### The marking passes, characterised -/

theorem zeroGrid_eq (ys xs : List String) :
    zeroGrid ys xs = List.replicate ys.length (xs.map (fun _ => 0)) := by
  unfold zeroGrid
  induction ys with
  | nil => rfl
  | cons y ys ih => simp [List.replicate_succ, ih]

theorem getD_zero_row (xs : List String) (j : Nat) :
    (xs.map (fun _ => (0 : Nat))).getD j 0 = 0 := by
  rcases Nat.lt_or_ge j xs.length with h | h
  · rw [List.getD_eq_getElem?_getD, List.getElem?_eq_getElem (by simpa using h)]
    simp
  · rw [List.getD_eq_getElem?_getD, List.getElem?_eq_none (by simpa using h)]
    rfl

theorem cellAt_zeroGrid (ys xs : List String) (i j : Nat) :
    cellAt (zeroGrid ys xs) i j = 0 := by
  rw [cellAt, zeroGrid_eq]
  have hrow : (List.replicate ys.length (xs.map (fun _ => (0 : Nat)))).getD i [] =
      if i < ys.length then xs.map (fun _ => 0) else [] := by
    rw [List.getD_eq_getElem?_getD, List.getElem?_replicate]
    split <;> rfl
  rw [hrow]
  split
  · exact getD_zero_row xs j
  · rfl

theorem goodDims_zeroGrid (ys xs : List String) : GoodDims ys xs (zeroGrid ys xs) := by
  constructor
  · simp [zeroGrid]
  · intro r hr
    simp only [zeroGrid, List.mem_map] at hr
    obtain ⟨y, _, rfl⟩ := hr
    simp

theorem goodDims_setCell {ys xs : List String} {g : List (List Nat)}
    (h : GoodDims ys xs g) (i j : Nat) : GoodDims ys xs (setCell g i j) := by
  rcases Nat.lt_or_ge i g.length with hi | hi
  · refine ⟨by simpa [setCell] using h.1, ?_⟩
    intro r hr
    rcases List.mem_or_eq_of_mem_set hr with hr | rfl
    · exact h.2 r hr
    · rw [List.length_set]
      apply h.2
      rw [List.getD_eq_getElem?_getD, List.getElem?_eq_getElem hi]
      exact List.getElem_mem hi
  · unfold setCell
    rw [List.set_eq_of_length_le hi]
    exact h

theorem cellAt_setCell (g : List (List Nat)) (i j i' j' : Nat) :
    cellAt (setCell g i j) i' j' =
      if i = i' ∧ j = j' ∧ i < g.length ∧ j < (g.getD i []).length then 1
      else cellAt g i' j' := by
  unfold cellAt setCell
  by_cases hii : i = i'
  · subst hii
    rcases Nat.lt_or_ge i g.length with hi | hi
    · have h1 : (g.set i ((g.getD i []).set j 1)).getD i [] = (g.getD i []).set j 1 := by
        rw [List.getD_eq_getElem?_getD, List.getElem?_set_self',
          List.getElem?_eq_getElem hi]
        rfl
      rw [h1]
      by_cases hjj : j = j'
      · subst hjj
        rcases Nat.lt_or_ge j (g.getD i []).length with hj | hj
        · have h2 : ((g.getD i []).set j 1).getD j 0 = 1 := by
            rw [List.getD_eq_getElem?_getD, List.getElem?_set_self',
              List.getElem?_eq_getElem (by simpa using hj)]
            rfl
          rw [h2, if_pos ⟨rfl, rfl, hi, hj⟩]
        · rw [List.set_eq_of_length_le hj, if_neg (by omega)]
      · have h2 : ((g.getD i []).set j 1).getD j' 0 = (g.getD i []).getD j' 0 := by
          rw [List.getD_eq_getElem?_getD, List.getElem?_set_ne hjj,
            ← List.getD_eq_getElem?_getD]
        rw [h2, if_neg (by tauto)]
    · rw [List.set_eq_of_length_le hi, if_neg (by omega)]
  · have h1 : (g.set i ((g.getD i []).set j 1)).getD i' [] = g.getD i' [] := by
      rw [List.getD_eq_getElem?_getD, List.getElem?_set_ne hii,
        ← List.getD_eq_getElem?_getD]
    rw [h1, if_neg (by tauto)]

/-- One marking step, characterised: `markRow` sets exactly the cell whose
indices are the `indexOf` positions of values present on both axes. -/
theorem cellAt_markRow {ys xs : List String} {g : List (List Nat)}
    (h : GoodDims ys xs g) (y x : String) (i j : Nat) :
    cellAt (markRow ys xs y x g) i j =
      if y ∈ ys ∧ x ∈ xs ∧ ys.indexOf y = i ∧ xs.indexOf x = j then 1
      else cellAt g i j := by
  unfold markRow
  by_cases hg : ys.indexOf y < ys.length ∧ xs.indexOf x < xs.length
  · rw [if_pos hg, cellAt_setCell]
    have hyl : ys.indexOf y < g.length := h.1 ▸ hg.1
    have hrow : g.getD (ys.indexOf y) [] = g[ys.indexOf y] := by
      rw [List.getD_eq_getElem?_getD, List.getElem?_eq_getElem hyl]; rfl
    have hxl : xs.indexOf x < (g.getD (ys.indexOf y) []).length := by
      rw [hrow, h.2 _ (List.getElem_mem hyl)]
      exact hg.2
    have hy : y ∈ ys := List.indexOf_lt_length.mp hg.1
    have hx : x ∈ xs := List.indexOf_lt_length.mp hg.2
    by_cases hij : ys.indexOf y = i ∧ xs.indexOf x = j
    · rw [if_pos ⟨hij.1, hij.2, hyl, hxl⟩, if_pos ⟨hy, hx, hij⟩]
    · rw [if_neg (by tauto), if_neg (by tauto)]
  · rw [if_neg hg, if_neg (by
      rintro ⟨hy, hx, -, -⟩
      exact hg ⟨List.indexOf_lt_length.mpr hy, List.indexOf_lt_length.mpr hx⟩)]

theorem goodDims_markRow {ys xs : List String} {g : List (List Nat)}
    (h : GoodDims ys xs g) (y x : String) : GoodDims ys xs (markRow ys xs y x g) := by
  unfold markRow
  split
  · exact goodDims_setCell h _ _
  · exact h

theorem goodDims_markRows {ys xs : List String} (cs : Selections)
    (cond : Source → Row → Bool) (src : Source) (rows : List Row)
    {g : List (List Nat)} (h : GoodDims ys xs g) :
    GoodDims ys xs (rows.foldl (fun g row =>
      if cond src row then markRow ys xs (yValOf cs src row) (xValOf cs src row) g
      else g) g) := by
  induction rows generalizing g with
  | nil => exact h
  | cons row rest ih =>
    simp only [List.foldl_cons]
    apply ih
    split
    · exact goodDims_markRow h _ _
    · exact h

/-- One guarded marking step, characterised. -/
theorem cellAt_markStep {ys xs : List String} (cs : Selections)
    (cond : Source → Row → Bool) (src : Source) (row : Row)
    {g : List (List Nat)} (h : GoodDims ys xs g) (i j : Nat) :
    cellAt (if cond src row then
        markRow ys xs (yValOf cs src row) (xValOf cs src row) g else g) i j =
      if cond src row && (ys.indexOf (yValOf cs src row) == i) &&
          (xs.indexOf (xValOf cs src row) == j) &&
          decide (yValOf cs src row ∈ ys) && decide (xValOf cs src row ∈ xs) then 1
      else cellAt g i j := by
  cases hc : cond src row
  · simp [hc]
  · simp only [hc, if_true, Bool.true_and]
    rw [cellAt_markRow h]
    by_cases hhit : yValOf cs src row ∈ ys ∧ xValOf cs src row ∈ xs ∧
        ys.indexOf (yValOf cs src row) = i ∧ xs.indexOf (xValOf cs src row) = j
    · rw [if_pos hhit, if_pos (by
        simp only [Bool.and_eq_true, beq_iff_eq, decide_eq_true_eq]
        tauto)]
    · rw [if_neg hhit, if_neg (by
        simp only [Bool.and_eq_true, beq_iff_eq, decide_eq_true_eq]
        tauto)]

theorem cellAt_markRows {ys xs : List String} (cs : Selections)
    (cond : Source → Row → Bool) (src : Source) (rows : List Row)
    {g : List (List Nat)} (h : GoodDims ys xs g) (i j : Nat) :
    cellAt (rows.foldl (fun g row =>
        if cond src row then markRow ys xs (yValOf cs src row) (xValOf cs src row) g
        else g) g) i j =
      if rows.any (fun row =>
          cond src row && (ys.indexOf (yValOf cs src row) == i) &&
            (xs.indexOf (xValOf cs src row) == j) &&
            decide (yValOf cs src row ∈ ys) && decide (xValOf cs src row ∈ xs)) then 1
      else cellAt g i j := by
  induction rows generalizing g with
  | nil => simp
  | cons row rest ih =>
    simp only [List.foldl_cons, List.any_cons]
    have hg' : GoodDims ys xs (if cond src row then
        markRow ys xs (yValOf cs src row) (xValOf cs src row) g else g) := by
      split
      · exact goodDims_markRow h _ _
      · exact h
    rw [ih hg', cellAt_markStep cs cond src row h i j]
    by_cases hrest : rest.any (fun row =>
        cond src row && (ys.indexOf (yValOf cs src row) == i) &&
          (xs.indexOf (xValOf cs src row) == j) &&
          decide (yValOf cs src row ∈ ys) && decide (xValOf cs src row ∈ xs)) = true
    · simp [hrest]
    · by_cases hrow : (cond src row && (ys.indexOf (yValOf cs src row) == i) &&
          (xs.indexOf (xValOf cs src row) == j) &&
          decide (yValOf cs src row ∈ ys) && decide (xValOf cs src row ∈ xs)) = true
      · simp [hrest, hrow]
      · simp [hrest, hrow]

theorem goodDims_markPairs {ys xs : List String} (cs : Selections)
    (cond : Source → Row → Bool) (pairs : List (Source × Sheet))
    {g : List (List Nat)} (h : GoodDims ys xs g) :
    GoodDims ys xs (markPairs cs ys xs cond pairs g) := by
  induction pairs generalizing g with
  | nil => exact h
  | cons p rest ih =>
    simp only [markPairs, List.foldl_cons] at *
    exact ih (goodDims_markRows cs cond p.1 p.2.data h)

/-- The marking pass, characterised: starting from a well-shaped grid, cell
`(i, j)` of the result is `1` exactly when some pair's row hits it, and the
original entry otherwise. -/
theorem cellAt_markPairs {ys xs : List String} (cs : Selections)
    (cond : Source → Row → Bool) (pairs : List (Source × Sheet))
    {g : List (List Nat)} (h : GoodDims ys xs g) (i j : Nat) :
    cellAt (markPairs cs ys xs cond pairs g) i j =
      if pairs.any (pairHits cs ys xs cond i j) then 1 else cellAt g i j := by
  induction pairs generalizing g with
  | nil => simp [markPairs]
  | cons p rest ih =>
    simp only [markPairs, List.foldl_cons, List.any_cons] at *
    rw [ih (goodDims_markRows cs cond p.1 p.2.data h)]
    by_cases hrest : rest.any (pairHits cs ys xs cond i j) = true
    · rw [if_pos hrest, if_pos (by simp [hrest])]
    · rw [if_neg hrest, cellAt_markRows cs cond p.1 p.2.data h i j]
      simp only [pairHits, hrest, Bool.or_false]

/-! ### Plumbing lemmas for the `Except` structure -/

theorem processSource_some {fd : List FileData} {cs : Selections} {src : Source}
    {sheet : Sheet} (hr : resolveSheet fd src = .ok (some sheet)) :
    processSource fd cs src = .ok (sourceMatrices cs src sheet) := by
  unfold processSource
  rw [hr]
  rfl

theorem processSource_none {fd : List FileData} {cs : Selections} {src : Source}
    (hr : resolveSheet fd src = .ok none) :
    processSource fd cs src = .ok [] := by
  unfold processSource
  rw [hr]
  rfl

theorem processMerge_ok {fd : List FileData} {cs : Selections} {cfg : Config}
    {pairs : List (Source × Sheet)}
    (hp : resolvedSheets fd cfg.sources = .ok pairs) :
    processMerge fd cs cfg = .ok (mergeMatrices cs cfg pairs) := by
  unfold processMerge
  rw [hp]
  rfl

theorem computeMatrices_single (fd : List FileData) (cs : Selections) (cfg : Config) :
    computeMatrices fd cs [cfg] = processConfig fd cs cfg := by
  unfold computeMatrices
  cases h : processConfig fd cs cfg with
  | error e => rw [show computeMatrices fd cs [] = .ok [] from rfl]; rfl
  | ok ms =>
    rw [show computeMatrices fd cs [] = .ok [] from rfl]
    show (Except.ok ms).bind _ = _
    simp [Except.bind]

/-! ### Membership in the collected values -/

theorem sTruthy_eq_some {o : Option String} {v : String} :
    sTruthy o = some v ↔ o = some v ∧ v ≠ "" := by
  cases o with
  | none => simp [sTruthy]
  | some w =>
    by_cases hw : w = ""
    · subst hw
      constructor
      · intro h
        exact absurd h (by simp [sTruthy])
      · rintro ⟨h, hne⟩
        cases h
        exact absurd rfl hne
    · constructor
      · intro h
        have h' : (if w = "" then none else some w) = some v := h
        rw [if_neg hw] at h'
        cases h'
        exact ⟨rfl, hw⟩
      · rintro ⟨h, hne⟩
        cases h
        show (if v = "" then none else some v) = some v
        rw [if_neg hne]

theorem mem_yCandidates {cs : Selections} {pairs : List (Source × Sheet)} {v : String} :
    v ∈ yCandidates cs pairs ↔
      ∃ p ∈ pairs, ∃ row ∈ p.2.data, yValOf cs p.1 row = v ∧ v ≠ "" := by
  unfold yCandidates
  rw [List.mem_flatten]
  constructor
  · rintro ⟨l, hl, hv⟩
    obtain ⟨p, hp, rfl⟩ := List.mem_map.mp hl
    obtain ⟨hv', hne⟩ := List.mem_filter.mp hv
    obtain ⟨row, hrow, rfl⟩ := List.mem_map.mp hv'
    exact ⟨p, hp, row, hrow, rfl, by simpa using hne⟩
  · rintro ⟨p, hp, row, hrow, rfl, hne⟩
    exact ⟨_, List.mem_map.mpr ⟨p, hp, rfl⟩,
      List.mem_filter.mpr ⟨List.mem_map.mpr ⟨row, hrow, rfl⟩, by simpa using hne⟩⟩

theorem mem_xCandidates {cs : Selections} {pairs : List (Source × Sheet)} {v : String} :
    v ∈ xCandidates cs pairs ↔
      ∃ p ∈ pairs, ∃ row ∈ p.2.data, xValOf cs p.1 row = v ∧ v ≠ "" := by
  unfold xCandidates
  rw [List.mem_flatten]
  constructor
  · rintro ⟨l, hl, hv⟩
    obtain ⟨p, hp, rfl⟩ := List.mem_map.mp hl
    obtain ⟨hv', hne⟩ := List.mem_filter.mp hv
    obtain ⟨row, hrow, rfl⟩ := List.mem_map.mp hv'
    exact ⟨p, hp, row, hrow, rfl, by simpa using hne⟩
  · rintro ⟨p, hp, row, hrow, rfl, hne⟩
    exact ⟨_, List.mem_map.mpr ⟨p, hp, rfl⟩,
      List.mem_filter.mpr ⟨List.mem_map.mpr ⟨row, hrow, rfl⟩, by simpa using hne⟩⟩

theorem mem_sCandidates {cs : Selections} {pairs : List (Source × Sheet)} {v : String} :
    v ∈ sCandidates cs pairs ↔
      ∃ p ∈ pairs, ∃ row ∈ p.2.data, sValOf cs p.1 row = some v ∧ v ≠ "" := by
  unfold sCandidates
  rw [List.mem_flatten]
  constructor
  · rintro ⟨l, hl, hv⟩
    obtain ⟨p, hp, rfl⟩ := List.mem_map.mp hl
    obtain ⟨row, hrow, hs⟩ := List.mem_filterMap.mp hv
    obtain ⟨h1, h2⟩ := sTruthy_eq_some.mp hs
    exact ⟨p, hp, row, hrow, h1, h2⟩
  · rintro ⟨p, hp, row, hrow, h1, h2⟩
    exact ⟨_, List.mem_map.mpr ⟨p, hp, rfl⟩,
      List.mem_filterMap.mpr ⟨row, hrow, sTruthy_eq_some.mpr ⟨h1, h2⟩⟩⟩

/-! ### Axis bookkeeping -/

theorem getD_mem_of_lt {l : List String} {i : Nat} (h : i < l.length) :
    l.getD i "" ∈ l := by
  rw [List.getD_eq_getElem?_getD, List.getElem?_eq_getElem h]
  exact List.getElem_mem h

theorem getD_indexOf_eq {l : List String} {v : String} (hv : v ∈ l) :
    l.getD (l.indexOf v) "" = v := by
  rw [List.getD_eq_getElem?_getD,
    List.getElem?_eq_getElem (List.indexOf_lt_length.mpr hv)]
  exact List.getElem_indexOf (List.indexOf_lt_length.mpr hv)

theorem indexOf_getD {l : List String} (h : l.Nodup) {i : Nat} (hi : i < l.length) :
    l.indexOf (l.getD i "") = i := by
  rw [List.getD_eq_getElem?_getD, List.getElem?_eq_getElem hi]
  simpa using List.indexOf_getElem h i hi

/-- The central cell characterisation: in a matrix whose axes are the
sorted collected values and whose grid is the zero grid after a marking
pass, cell `(i, j)` is `1` exactly when some resolved row passes the guard
and its values are the `i`-th and `j`-th axis labels. -/
theorem cellAt_built {cs : Selections} {cond : Source → Row → Bool}
    {pairs : List (Source × Sheet)} {ys xs : List String}
    (hys : ys = sortedValues (yCandidates cs pairs))
    (hxs : xs = sortedValues (xCandidates cs pairs)) {i j : Nat}
    (hi : i < ys.length) (hj : j < xs.length) :
    cellAt (markPairs cs ys xs cond pairs (zeroGrid ys xs)) i j = 1 ↔
      ∃ p ∈ pairs, ∃ row ∈ p.2.data, cond p.1 row = true ∧
        yValOf cs p.1 row = ys.getD i "" ∧ xValOf cs p.1 row = xs.getD j "" := by
  have hnody : ys.Nodup := hys ▸ sortedValues_nodup _
  have hnodx : xs.Nodup := hxs ▸ sortedValues_nodup _
  rw [cellAt_markPairs cs cond pairs (goodDims_zeroGrid ys xs) i j]
  constructor
  · intro h1
    by_cases hany : pairs.any (pairHits cs ys xs cond i j) = true
    · obtain ⟨p, hp, hhit⟩ := List.any_eq_true.mp hany
      obtain ⟨row, hrow, hcondrow⟩ := List.any_eq_true.mp hhit
      simp only [Bool.and_eq_true, beq_iff_eq, decide_eq_true_eq] at hcondrow
      obtain ⟨⟨⟨⟨hc, hiy⟩, hjx⟩, hym⟩, hxm⟩ := hcondrow
      refine ⟨p, hp, row, hrow, hc, ?_, ?_⟩
      · rw [← hiy, getD_indexOf_eq hym]
      · rw [← hjx, getD_indexOf_eq hxm]
    · rw [if_neg hany, cellAt_zeroGrid] at h1
      exact absurd h1 (by simp)
  · rintro ⟨p, hp, row, hrow, hc, hyv, hxv⟩
    have hym : yValOf cs p.1 row ∈ ys := hyv ▸ getD_mem_of_lt hi
    have hxm : xValOf cs p.1 row ∈ xs := hxv ▸ getD_mem_of_lt hj
    have hiy : ys.indexOf (yValOf cs p.1 row) = i := by
      rw [hyv, indexOf_getD hnody hi]
    have hjx : xs.indexOf (xValOf cs p.1 row) = j := by
      rw [hxv, indexOf_getD hnodx hj]
    rw [if_pos (List.any_eq_true.mpr ⟨p, hp, List.any_eq_true.mpr ⟨row, hrow, by
      simp only [Bool.and_eq_true, beq_iff_eq, decide_eq_true_eq]
      exact ⟨⟨⟨⟨hc, hiy⟩, hjx⟩, hym⟩, hxm⟩⟩⟩)]

/-- Labels on a Y axis built by the engine are never empty. -/
theorem yAxis_ne_empty {cs : Selections} {pairs : List (Source × Sheet)} {v : String}
    (hv : v ∈ sortedValues (yCandidates cs pairs)) : v ≠ "" := by
  rw [mem_sortedValues] at hv
  exact (mem_yCandidates.mp hv).choose_spec.2.choose_spec.2.2

/-- Labels on an X axis built by the engine are never empty. -/
theorem xAxis_ne_empty {cs : Selections} {pairs : List (Source × Sheet)} {v : String}
    (hv : v ∈ sortedValues (xCandidates cs pairs)) : v ≠ "" := by
  rw [mem_sortedValues] at hv
  exact (mem_xCandidates.mp hv).choose_spec.2.choose_spec.2.2

theorem processSources_one {fd : List FileData} {cs : Selections} {src : Source}
    {sheet : Sheet} (hr : resolveSheet fd src = .ok (some sheet)) :
    processSources fd cs [src] = .ok (sourceMatrices cs src sheet) := by
  simp only [processSources]
  rw [processSource_some hr]
  show Except.ok (sourceMatrices cs src sheet ++ []) = _
  rw [List.append_nil]

/-! ### Concrete scenario inputs -/

/-! ### The claims -/

/-- C1: for a config processed in independent mode from a single resolved
sheet with no secondary-axis split, cell `(i, j)` of the produced matrix is
`1` iff at least one row of that sheet has trimmed Y value `yAxis[i]` and
trimmed X value `xAxis[j]`; and the Scenario A input yields
`yAxis = [Alice, Bob]`, `xAxis = [Admin, Editor]`,
`cells = [[1,1],[1,0]]`. -/
theorem claim_C1 (fd : List FileData) (cs : Selections) (cfg : Config)
    (src : Source) (sheet : Sheet) (hm : cfg.merge = false)
    (hs : cfg.sources = [src]) (hr : resolveSheet fd src = .ok (some sheet))
    (hsec : sourceSecX cs src sheet = []) :
    (∃ m : Matrix, computeMatrices fd cs [cfg] = .ok [m] ∧
      ∀ i j, i < m.yAxis.length → j < m.xAxis.length →
        (cellAt m.data i j = 1 ↔ ∃ row ∈ sheet.data,
          yValOf cs src row = m.yAxis.getD i "" ∧
          xValOf cs src row = m.xAxis.getD j "")) ∧
    computeMatrices fdA csA [cfgA] =
      .ok [{ name := "file1.xlsx - Sheet1", yAxis := ["Alice", "Bob"],
             xAxis := ["Admin", "Editor"], data := [[1, 1], [1, 0]] }] := by
  constructor
  · have hout : computeMatrices fd cs [cfg] = .ok (sourceMatrices cs src sheet) := by
      rw [computeMatrices_single]
      unfold processConfig
      rw [hm, if_neg Bool.false_ne_true, hs]
      exact processSources_one hr
    have hmx : sourceMatrices cs src sheet =
        [{ name := src.fileName ++ " - " ++ src.sheetName
           yAxis := sourceYAxis cs src sheet
           xAxis := sourceXAxis cs src sheet
           data := markAll cs (sourceYAxis cs src sheet) (sourceXAxis cs src sheet)
             [(src, sheet)]
             (zeroGrid (sourceYAxis cs src sheet) (sourceXAxis cs src sheet)) }] := by
      unfold sourceMatrices
      rw [hsec]
      rfl
    refine ⟨_, by rw [hout, hmx], ?_⟩
    intro i j hi hj
    simp only at hi hj ⊢
    rw [markAll, @cellAt_built cs (condYX cs) [(src, sheet)]
      (sourceYAxis cs src sheet) (sourceXAxis cs src sheet) rfl rfl i j hi hj]
    constructor
    · rintro ⟨p, hp, row, hrow, hc, hy, hx⟩
      rw [List.mem_singleton] at hp
      subst hp
      exact ⟨row, hrow, hy, hx⟩
    · rintro ⟨row, hrow, hy, hx⟩
      refine ⟨(src, sheet), List.mem_singleton_self _, row, hrow, ?_, hy, hx⟩
      have hyne : yValOf cs src row ≠ "" := by
        rw [hy]
        exact yAxis_ne_empty (getD_mem_of_lt hi)
      have hxne : xValOf cs src row ≠ "" := by
        rw [hx]
        exact xAxis_ne_empty (getD_mem_of_lt hj)
      simp [condYX, hyne, hxne]
  · rfl

/-- Witness for C1: at the Scenario A input every hypothesis holds and the
theorem applies. -/
theorem claim_C1_witness :
    (cfgA.merge = false ∧ cfgA.sources = [srcA] ∧
      resolveSheet fdA srcA = .ok (some sheetA) ∧
      sourceSecX csA srcA sheetA = []) ∧
    ((∃ m : Matrix, computeMatrices fdA csA [cfgA] = .ok [m] ∧
      ∀ i j, i < m.yAxis.length → j < m.xAxis.length →
        (cellAt m.data i j = 1 ↔ ∃ row ∈ sheetA.data,
          yValOf csA srcA row = m.yAxis.getD i "" ∧
          xValOf csA srcA row = m.xAxis.getD j "")) ∧
    computeMatrices fdA csA [cfgA] =
      .ok [{ name := "file1.xlsx - Sheet1", yAxis := ["Alice", "Bob"],
             xAxis := ["Admin", "Editor"], data := [[1, 1], [1, 0]] }]) :=
  ⟨⟨rfl, rfl, rfl, rfl⟩, claim_C1 fdA csA cfgA srcA sheetA rfl rfl rfl rfl⟩

/-- C10: a config whose sources list is empty still computes: with
`merge = true` it produces one degenerate matrix named after the config
with empty axes and an empty grid; with `merge = false` it produces no
matrix at all.  Neither case fails. -/
theorem claim_C10 (fd : List FileData) (cs : Selections) (name : String) :
    computeMatrices fd cs [⟨name, true, []⟩] =
      .ok [{ name := name, yAxis := [], xAxis := [], data := [] }] ∧
    computeMatrices fd cs [⟨name, false, []⟩] = .ok [] :=
  ⟨rfl, rfl⟩

/-! ### Every produced grid is well-shaped with 0/1 entries -/

theorem cells01_zeroGrid (ys xs : List String) : Cells01 (zeroGrid ys xs) := by
  intro r hr v hv
  simp only [zeroGrid, List.mem_map] at hr
  obtain ⟨y, -, rfl⟩ := hr
  obtain ⟨x, -, rfl⟩ := List.mem_map.mp hv
  left
  rfl

theorem cells01_setCell {g : List (List Nat)} (h : Cells01 g) (i j : Nat) :
    Cells01 (setCell g i j) := by
  rcases Nat.lt_or_ge i g.length with hi | hi
  · intro r hr v hv
    rcases List.mem_or_eq_of_mem_set hr with hr | rfl
    · exact h r hr v hv
    · rcases List.mem_or_eq_of_mem_set hv with hv | rfl
      · refine h _ ?_ v hv
        rw [List.getD_eq_getElem?_getD, List.getElem?_eq_getElem hi]
        exact List.getElem_mem hi
      · right
        rfl
  · unfold setCell
    rw [List.set_eq_of_length_le hi]
    exact h

theorem cells01_markRow {ys xs : List String} {g : List (List Nat)}
    (h : Cells01 g) (y x : String) : Cells01 (markRow ys xs y x g) := by
  unfold markRow
  split
  · exact cells01_setCell h _ _
  · exact h

theorem cells01_markPairs {ys xs : List String} (cs : Selections)
    (cond : Source → Row → Bool) (pairs : List (Source × Sheet))
    {g : List (List Nat)} (h : Cells01 g) :
    Cells01 (markPairs cs ys xs cond pairs g) := by
  induction pairs generalizing g with
  | nil => exact h
  | cons p rest ih =>
    simp only [markPairs, List.foldl_cons] at *
    apply ih
    clear ih
    induction p.2.data generalizing g with
    | nil => exact h
    | cons row rrest ih2 =>
      simp only [List.foldl_cons]
      apply ih2
      split
      · exact cells01_markRow h _ _
      · exact h

/-- Any grid built by a marking pass over the zero grid has the shape and
0/1 content the spec requires. -/
theorem built_shape (cs : Selections) (cond : Source → Row → Bool)
    (pairs : List (Source × Sheet)) (ys xs : List String) :
    (markPairs cs ys xs cond pairs (zeroGrid ys xs)).length = ys.length ∧
    (∀ r ∈ markPairs cs ys xs cond pairs (zeroGrid ys xs), r.length = xs.length) ∧
    Cells01 (markPairs cs ys xs cond pairs (zeroGrid ys xs)) := by
  have hd := goodDims_markPairs cs cond pairs (goodDims_zeroGrid ys xs)
  exact ⟨hd.1, hd.2, cells01_markPairs cs cond pairs (cells01_zeroGrid ys xs)⟩

theorem matrixOK_mergeMatrices {cs : Selections} {cfg : Config}
    {pairs : List (Source × Sheet)} :
    ∀ m ∈ mergeMatrices cs cfg pairs, MatrixOK m := by
  intro m hm
  unfold mergeMatrices at hm
  split at hm
  · obtain ⟨secX, -, rfl⟩ := List.mem_map.mp hm
    exact built_shape cs _ pairs _ _
  · rw [List.mem_singleton] at hm
    subst hm
    exact built_shape cs _ pairs _ _

theorem matrixOK_sourceMatrices {cs : Selections} {src : Source} {sheet : Sheet} :
    ∀ m ∈ sourceMatrices cs src sheet, MatrixOK m := by
  intro m hm
  unfold sourceMatrices at hm
  split at hm
  · obtain ⟨secX, -, rfl⟩ := List.mem_map.mp hm
    exact built_shape cs _ _ _ _
  · rw [List.mem_singleton] at hm
    subst hm
    exact built_shape cs _ _ _ _

/-- Inversion of the bind in `Except Unit`. -/
theorem exceptBind_ok {α β : Type} {x : Except Unit α} {f : α → Except Unit β}
    {b : β} (h : x.bind f = .ok b) : ∃ a, x = .ok a ∧ f a = .ok b := by
  cases x with
  | error e => exact absurd h (by simp [Except.bind])
  | ok a => exact ⟨a, rfl, h⟩

theorem processSource_ok_cases {fd : List FileData} {cs : Selections} {src : Source}
    {ms : List Matrix} (h : processSource fd cs src = .ok ms) :
    ms = [] ∨ ∃ sheet, resolveSheet fd src = .ok (some sheet) ∧
      ms = sourceMatrices cs src sheet := by
  unfold processSource at h
  obtain ⟨o, ho, h2⟩ := exceptBind_ok h
  cases o with
  | none =>
    left
    cases h2
    rfl
  | some sheet =>
    right
    refine ⟨sheet, ho, ?_⟩
    cases h2
    rfl

theorem processMerge_ok_cases {fd : List FileData} {cs : Selections} {cfg : Config}
    {ms : List Matrix} (h : processMerge fd cs cfg = .ok ms) :
    ∃ pairs, resolvedSheets fd cfg.sources = .ok pairs ∧
      ms = mergeMatrices cs cfg pairs := by
  unfold processMerge at h
  obtain ⟨pairs, hp, hms⟩ := exceptBind_ok h
  refine ⟨pairs, hp, ?_⟩
  cases hms
  rfl

theorem matrixOK_processSources {fd : List FileData} {cs : Selections} :
    ∀ (srcs : List Source) (ms : List Matrix),
      processSources fd cs srcs = .ok ms → ∀ m ∈ ms, MatrixOK m := by
  intro srcs
  induction srcs with
  | nil =>
    intro ms h m hm
    cases h
    exact absurd hm (List.not_mem_nil m)
  | cons src rest ih =>
    intro ms h m hm
    rw [show processSources fd cs (src :: rest) =
      (processSource fd cs src).bind (fun a =>
        (processSources fd cs rest).bind (fun b => pure (a ++ b))) from rfl] at h
    obtain ⟨a, ha, h2⟩ := exceptBind_ok h
    obtain ⟨b, hb, h3⟩ := exceptBind_ok h2
    cases h3
    rcases List.mem_append.mp hm with hma | hmb
    · rcases processSource_ok_cases ha with rfl | ⟨sheet, -, rfl⟩
      · exact absurd hma (List.not_mem_nil m)
      · exact matrixOK_sourceMatrices m hma
    · exact ih b hb m hmb

theorem matrixOK_processConfig {fd : List FileData} {cs : Selections} {cfg : Config}
    {ms : List Matrix} (h : processConfig fd cs cfg = .ok ms) :
    ∀ m ∈ ms, MatrixOK m := by
  unfold processConfig at h
  split at h
  · obtain ⟨pairs, -, rfl⟩ := processMerge_ok_cases h
    exact matrixOK_mergeMatrices
  · exact matrixOK_processSources cfg.sources ms h

/-- C9: every matrix produced by `computeMatrices` has as many cell rows as
Y-axis labels, every cell row as long as the X axis, and only 0/1 cells. -/
theorem claim_C9 (fd : List FileData) (cs : Selections) (mc : List Config)
    (ms : List Matrix) (h : computeMatrices fd cs mc = .ok ms) :
    ∀ m ∈ ms, m.data.length = m.yAxis.length ∧
      (∀ r ∈ m.data, r.length = m.xAxis.length) ∧
      (∀ r ∈ m.data, ∀ v ∈ r, v = 0 ∨ v = 1) := by
  induction mc generalizing ms with
  | nil =>
    cases h
    intro m hm
    exact absurd hm (List.not_mem_nil m)
  | cons cfg rest ih =>
    rw [show computeMatrices fd cs (cfg :: rest) =
      (processConfig fd cs cfg).bind (fun a =>
        (computeMatrices fd cs rest).bind (fun b => pure (a ++ b))) from rfl] at h
    obtain ⟨a, ha, h2⟩ := exceptBind_ok h
    obtain ⟨b, hb, h3⟩ := exceptBind_ok h2
    cases h3
    intro m hm
    rcases List.mem_append.mp hm with hma | hmb
    · exact matrixOK_processConfig ha m hma
    · exact ih b hb m hmb

/-- Witness for C9 at the Scenario A input. -/
theorem claim_C9_witness :
    computeMatrices fdA csA [cfgA] = .ok [matA] ∧
    (∀ m ∈ [matA],
      m.data.length = m.yAxis.length ∧
      (∀ r ∈ m.data, r.length = m.xAxis.length) ∧
      (∀ r ∈ m.data, ∀ v ∈ r, v = 0 ∨ v = 1)) :=
  ⟨rfl, claim_C9 fdA csA [cfgA] [matA] rfl⟩

/-! ### Axis order: what the code produces vs what the spec says -/

/-- Every matrix of a successful run comes from one of the two builders. -/
theorem mem_processSources {fd : List FileData} {cs : Selections} :
    ∀ {srcs : List Source} {ms : List Matrix},
      processSources fd cs srcs = .ok ms → ∀ {m : Matrix}, m ∈ ms →
      ∃ src sheet, resolveSheet fd src = .ok (some sheet) ∧
        m ∈ sourceMatrices cs src sheet := by
  intro srcs
  induction srcs with
  | nil =>
    intro ms h m hm
    cases h
    exact absurd hm (List.not_mem_nil m)
  | cons src rest ih =>
    intro ms h m hm
    rw [show processSources fd cs (src :: rest) =
      (processSource fd cs src).bind (fun a =>
        (processSources fd cs rest).bind (fun b => pure (a ++ b))) from rfl] at h
    obtain ⟨a, ha, h2⟩ := exceptBind_ok h
    obtain ⟨b, hb, h3⟩ := exceptBind_ok h2
    cases h3
    rcases List.mem_append.mp hm with hma | hmb
    · rcases processSource_ok_cases ha with rfl | ⟨sheet, hr, rfl⟩
      · exact absurd hma (List.not_mem_nil m)
      · exact ⟨src, sheet, hr, hma⟩
    · exact ih hb hmb

/-- Provenance of an output matrix: it was built either by the merge
branch from some config's resolved pairs, or by the independent branch
from some resolved source. -/
theorem mem_output {fd : List FileData} {cs : Selections} :
    ∀ {mc : List Config} {ms : List Matrix},
      computeMatrices fd cs mc = .ok ms → ∀ {m : Matrix}, m ∈ ms →
      (∃ cfg pairs, resolvedSheets fd cfg.sources = .ok pairs ∧
        m ∈ mergeMatrices cs cfg pairs) ∨
      (∃ src sheet, resolveSheet fd src = .ok (some sheet) ∧
        m ∈ sourceMatrices cs src sheet) := by
  intro mc
  induction mc with
  | nil =>
    intro ms h m hm
    cases h
    exact absurd hm (List.not_mem_nil m)
  | cons cfg rest ih =>
    intro ms h m hm
    rw [show computeMatrices fd cs (cfg :: rest) =
      (processConfig fd cs cfg).bind (fun a =>
        (computeMatrices fd cs rest).bind (fun b => pure (a ++ b))) from rfl] at h
    obtain ⟨a, ha, h2⟩ := exceptBind_ok h
    obtain ⟨b, hb, h3⟩ := exceptBind_ok h2
    cases h3
    rcases List.mem_append.mp hm with hma | hmb
    · unfold processConfig at ha
      split at ha
      · obtain ⟨pairs, hp, rfl⟩ := processMerge_ok_cases ha
        exact Or.inl ⟨cfg, pairs, hp, hma⟩
      · exact Or.inr (mem_processSources ha hma)
    · exact ih hb hmb

theorem axesOK_of_sortedValues {m : Matrix} {cs : Selections}
    {pairs : List (Source × Sheet)}
    (hy : m.yAxis = sortedValues (yCandidates cs pairs))
    (hx : m.xAxis = sortedValues (xCandidates cs pairs)) : AxesOK m := by
  refine ⟨⟨?_, hy ▸ sortedValues_nodup _, hy ▸ sortedValues_sorted _⟩,
          ⟨?_, hx ▸ sortedValues_nodup _, hx ▸ sortedValues_sorted _⟩⟩
  · intro hmem
    exact yAxis_ne_empty (hy ▸ hmem) rfl
  · intro hmem
    exact xAxis_ne_empty (hx ▸ hmem) rfl

theorem axesOK_mergeMatrices {cs : Selections} {cfg : Config}
    {pairs : List (Source × Sheet)} :
    ∀ m ∈ mergeMatrices cs cfg pairs, AxesOK m := by
  intro m hm
  unfold mergeMatrices at hm
  split at hm
  · obtain ⟨secX, -, rfl⟩ := List.mem_map.mp hm
    exact axesOK_of_sortedValues rfl rfl
  · rw [List.mem_singleton] at hm
    subst hm
    exact axesOK_of_sortedValues rfl rfl

theorem axesOK_sourceMatrices {cs : Selections} {src : Source} {sheet : Sheet} :
    ∀ m ∈ sourceMatrices cs src sheet, AxesOK m := by
  intro m hm
  unfold sourceMatrices at hm
  split at hm
  · obtain ⟨secX, -, rfl⟩ := List.mem_map.mp hm
    exact axesOK_of_sortedValues rfl rfl
  · rw [List.mem_singleton] at hm
    subst hm
    exact axesOK_of_sortedValues rfl rfl

/-- C3 (amended): axes of every produced matrix contain no empty string
and no duplicate and are sorted ascending in the JavaScript default sort
order, which compares UTF-16 code-unit sequences — not code points. -/
theorem claim_C3 (fd : List FileData) (cs : Selections) (mc : List Config)
    (ms : List Matrix) (h : computeMatrices fd cs mc = .ok ms) :
    ∀ m ∈ ms, ("" ∉ m.yAxis ∧ m.yAxis.Nodup ∧ m.yAxis.Sorted jsLE) ∧
              ("" ∉ m.xAxis ∧ m.xAxis.Nodup ∧ m.xAxis.Sorted jsLE) := by
  intro m hm
  rcases mem_output h hm with ⟨cfg, pairs, -, hmm⟩ | ⟨src, sheet, -, hms⟩
  · exact axesOK_mergeMatrices m hmm
  · exact axesOK_sourceMatrices m hms

/-- C3 counterexample: with Y values U+FFEE and U+1F600 the produced
axis is `["😀", "￮"]`, which is not ascending in code-point order
(`cpLE "😀" "￮"` is false since 0x1F600 > 0xFFEE): JavaScript sorted by
UTF-16 code units, where the high surrogate 0xD83D precedes 0xFFEE. -/
theorem claim_C3_cex :
    computeMatrices fdU csU [cfgU] = .ok [matU] ∧
    matU.yAxis = ["😀", "￮"] ∧ cpLE "😀" "￮" = false :=
  ⟨rfl, rfl, rfl⟩

/-- Witness for C3 at the Scenario A input. -/
theorem claim_C3_witness :
    computeMatrices fdA csA [cfgA] = .ok [matA] ∧
    (∀ m ∈ [matA], ("" ∉ m.yAxis ∧ m.yAxis.Nodup ∧ m.yAxis.Sorted jsLE) ∧
      ("" ∉ m.xAxis ∧ m.xAxis.Nodup ∧ m.xAxis.Sorted jsLE)) :=
  ⟨rfl, claim_C3 fdA csA [cfgA] [matA] rfl⟩

/-! ### Value coercion -/

/-- The common output shape of a single-source independent config. -/
theorem single_source_output {fd : List FileData} {cs : Selections} {cfg : Config}
    {src : Source} {sheet : Sheet} (hm : cfg.merge = false)
    (hs : cfg.sources = [src]) (hr : resolveSheet fd src = .ok (some sheet))
    (hsec : sourceSecX cs src sheet = []) :
    computeMatrices fd cs [cfg] = .ok
      [{ name := src.fileName ++ " - " ++ src.sheetName
         yAxis := sourceYAxis cs src sheet
         xAxis := sourceXAxis cs src sheet
         data := markAll cs (sourceYAxis cs src sheet) (sourceXAxis cs src sheet)
           [(src, sheet)]
           (zeroGrid (sourceYAxis cs src sheet) (sourceXAxis cs src sheet)) }] := by
  rw [computeMatrices_single]
  unfold processConfig
  rw [hm, if_neg Bool.false_ne_true, hs, processSources_one hr]
  unfold sourceMatrices
  rw [hsec]
  rfl

/-- C4 (amended): an axis label is exactly a non-empty
`String(raw || '').trim()` value of some row — JavaScript-falsy raw values
(empty string, the number 0, false, missing) coerce to the empty string
and are discarded, never becoming labels. -/
theorem claim_C4 (fd : List FileData) (cs : Selections) (cfg : Config)
    (src : Source) (sheet : Sheet) (hm : cfg.merge = false)
    (hs : cfg.sources = [src]) (hr : resolveSheet fd src = .ok (some sheet))
    (hsec : sourceSecX cs src sheet = []) :
    ∃ m : Matrix, computeMatrices fd cs [cfg] = .ok [m] ∧
      (∀ l : String, l ∈ m.yAxis ↔
        l ≠ "" ∧ ∃ row ∈ sheet.data, yValOf cs src row = l) ∧
      (∀ row : Row, (getProp row (getSel cs (selKey src)).yAxis).falsy = true →
        yValOf cs src row = "") := by
  refine ⟨_, single_source_output hm hs hr hsec, ?_, ?_⟩
  · intro l
    show l ∈ sourceYAxis cs src sheet ↔ _
    unfold sourceYAxis
    rw [mem_sortedValues, mem_yCandidates]
    constructor
    · rintro ⟨p, hp, row, hrow, hval, hne⟩
      rw [List.mem_singleton] at hp
      subst hp
      exact ⟨hne, row, hrow, hval⟩
    · rintro ⟨hne, row, hrow, hval⟩
      exact ⟨(src, sheet), List.mem_singleton_self _, row, hrow, hval, hne⟩
  · intro row hf
    unfold yValOf cellStr
    simp only [hf, if_true]
    rfl

/-- C4 counterexample: the claim predicts the raw number `0` becomes the
axis label `"0"`; in fact the produced matrix has an empty Y axis — the
`|| ''` coercion discards the falsy value `0`. -/
theorem claim_C4_cex :
    computeMatrices fdZ csZ [cfgZ] = .ok [matZ] ∧
    matZ.yAxis = [] ∧ ("0" : String) ∉ matZ.yAxis :=
  ⟨rfl, rfl, by simp [matZ]⟩

/-- Witness for C4 at the number-0 input. -/
theorem claim_C4_witness :
    (cfgZ.merge = false ∧ cfgZ.sources = [srcZ] ∧
      resolveSheet fdZ srcZ = .ok (some sheetZ) ∧
      sourceSecX csZ srcZ sheetZ = []) ∧
    (∃ m : Matrix, computeMatrices fdZ csZ [cfgZ] = .ok [m] ∧
      (∀ l : String, l ∈ m.yAxis ↔
        l ≠ "" ∧ ∃ row ∈ sheetZ.data, yValOf csZ srcZ row = l) ∧
      (∀ row : Row, (getProp row (getSel csZ (selKey srcZ)).yAxis).falsy = true →
        yValOf csZ srcZ row = "")) :=
  ⟨⟨rfl, rfl, rfl, rfl⟩, claim_C4 fdZ csZ cfgZ srcZ sheetZ rfl rfl rfl rfl⟩

/-! ### Missing columns and missing selections -/

theorem yValOf_of_absent {cs : Selections} {src : Source} {row : Row}
    (h : row.lookup (((getSel cs (selKey src)).yAxis).getD "undefined") = none) :
    yValOf cs src row = "" := by
  unfold yValOf cellStr getProp
  simp only [h]
  rfl

theorem xValOf_of_absent {cs : Selections} {src : Source} {row : Row}
    (h : row.lookup (((getSel cs (selKey src)).xAxis).getD "undefined") = none) :
    xValOf cs src row = "" := by
  unfold xValOf cellStr getProp
  simp only [h]
  rfl

theorem yCandidates_nil_of_empty {cs : Selections} {src : Source} {sheet : Sheet}
    (hall : ∀ row ∈ sheet.data, yValOf cs src row = "") :
    yCandidates cs [(src, sheet)] = [] := by
  unfold yCandidates
  simp only [List.map_cons, List.map_nil, List.flatten_cons, List.flatten_nil,
    List.append_nil]
  rw [List.filter_eq_nil_iff]
  intro v hv
  obtain ⟨row, hrow, rfl⟩ := List.mem_map.mp hv
  rw [hall row hrow]
  simp

theorem xCandidates_nil_of_empty {cs : Selections} {src : Source} {sheet : Sheet}
    (hall : ∀ row ∈ sheet.data, xValOf cs src row = "") :
    xCandidates cs [(src, sheet)] = [] := by
  unfold xCandidates
  simp only [List.map_cons, List.map_nil, List.flatten_cons, List.flatten_nil,
    List.append_nil]
  rw [List.filter_eq_nil_iff]
  intro v hv
  obtain ⟨row, hrow, rfl⟩ := List.mem_map.mp hv
  rw [hall row hrow]
  simp

/-- C6 (amended): if the key actually read for an axis — the selected
column name, or the literal string "undefined" when the selection is
missing — is absent from every row of the single resolved sheet, the
computation completes normally and that axis gets no labels and no
1-cells. -/
theorem claim_C6 (fd : List FileData) (cs : Selections) (cfg : Config)
    (src : Source) (sheet : Sheet) (hm : cfg.merge = false)
    (hs : cfg.sources = [src]) (hr : resolveSheet fd src = .ok (some sheet))
    (hsec : sourceSecX cs src sheet = []) :
    ∃ m : Matrix, computeMatrices fd cs [cfg] = .ok [m] ∧
      ((∀ row ∈ sheet.data,
          row.lookup (((getSel cs (selKey src)).yAxis).getD "undefined") = none) →
        m.yAxis = [] ∧ m.data = []) ∧
      ((∀ row ∈ sheet.data,
          row.lookup (((getSel cs (selKey src)).xAxis).getD "undefined") = none) →
        m.xAxis = [] ∧ ∀ r ∈ m.data, r = []) := by
  refine ⟨_, single_source_output hm hs hr hsec, ?_, ?_⟩
  · intro hall
    have hy : sourceYAxis cs src sheet = [] := by
      unfold sourceYAxis
      rw [yCandidates_nil_of_empty (fun row hrow => yValOf_of_absent (hall row hrow))]
      rfl
    refine ⟨hy, ?_⟩
    have hd := (goodDims_markPairs cs (condYX cs) [(src, sheet)]
      (goodDims_zeroGrid (sourceYAxis cs src sheet) (sourceXAxis cs src sheet))).1
    rw [hy] at hd ⊢
    exact List.length_eq_zero.mp hd
  · intro hall
    have hx : sourceXAxis cs src sheet = [] := by
      unfold sourceXAxis
      rw [xCandidates_nil_of_empty (fun row hrow => xValOf_of_absent (hall row hrow))]
      rfl
    refine ⟨hx, ?_⟩
    intro r hrm
    have hd := (goodDims_markPairs cs (condYX cs) [(src, sheet)]
      (goodDims_zeroGrid (sourceYAxis cs src sheet) (sourceXAxis cs src sheet))).2 r hrm
    rw [hx] at hd
    exact List.length_eq_zero.mp hd

/-- C6 counterexample: the Y selection is missing, yet the sheet's column
literally named "undefined" supplies the label "P" and a 1-cell — the
column does contribute, because `row[undefined]` reads property
"undefined".  The claim's "treated as empty" fails here. -/
theorem claim_C6_cex :
    computeMatrices fdN csN [cfgN] = .ok [matN] ∧
    (getSel csN (selKey srcN)).yAxis = none ∧
    matN.yAxis = ["P"] ∧ matN.yAxis ≠ [] :=
  ⟨rfl, rfl, rfl, by simp [matN]⟩

theorem claim_C6_witness :
    (cfgA.merge = false ∧ cfgA.sources = [srcA] ∧
      resolveSheet fdA srcA = .ok (some sheetA) ∧
      sourceSecX csM srcA sheetA = []) ∧
    (∃ m : Matrix, computeMatrices fdA csM [cfgA] = .ok [m] ∧
      ((∀ row ∈ sheetA.data,
          row.lookup (((getSel csM (selKey srcA)).yAxis).getD "undefined") = none) →
        m.yAxis = [] ∧ m.data = []) ∧
      ((∀ row ∈ sheetA.data,
          row.lookup (((getSel csM (selKey srcA)).xAxis).getD "undefined") = none) →
        m.xAxis = [] ∧ ∀ r ∈ m.data, r = [])) :=
  ⟨⟨rfl, rfl, rfl, rfl⟩, claim_C6 fdA csM cfgA srcA sheetA rfl rfl rfl rfl⟩

/-! ### Independent mode: one matrix per source -/

theorem sourceMatrices_noSec {cs : Selections} {src : Source} {sheet : Sheet}
    (hsec : sourceSecX cs src sheet = []) :
    sourceMatrices cs src sheet =
      [{ name := src.fileName ++ " - " ++ src.sheetName
         yAxis := sourceYAxis cs src sheet
         xAxis := sourceXAxis cs src sheet
         data := markAll cs (sourceYAxis cs src sheet) (sourceXAxis cs src sheet)
           [(src, sheet)]
           (zeroGrid (sourceYAxis cs src sheet) (sourceXAxis cs src sheet)) }] := by
  unfold sourceMatrices
  rw [hsec]
  rfl

theorem processSources_names {fd : List FileData} {cs : Selections} :
    ∀ srcs : List Source,
      (∀ src ∈ srcs, ∃ sheet, resolveSheet fd src = .ok (some sheet)) →
      (∀ src ∈ srcs, optTruthy (getSel cs (selKey src)).secondaryXAxis = false) →
      ∃ ms, processSources fd cs srcs = .ok ms ∧
        ms.map Matrix.name =
          srcs.map (fun src => src.fileName ++ " - " ++ src.sheetName) := by
  intro srcs
  induction srcs with
  | nil => exact fun _ _ => ⟨[], rfl, rfl⟩
  | cons src rest ih =>
    intro hres hnosec
    obtain ⟨sheet, hr⟩ := hres src (List.mem_cons_self _ _)
    obtain ⟨ms', hms', hnames⟩ :=
      ih (fun s hs => hres s (List.mem_cons_of_mem _ hs))
        (fun s hs => hnosec s (List.mem_cons_of_mem _ hs))
    have hsec : sourceSecX cs src sheet = [] := by
      unfold sourceSecX
      rw [hnosec src (List.mem_cons_self _ _), if_neg Bool.false_ne_true]
    refine ⟨sourceMatrices cs src sheet ++ ms', ?_, ?_⟩
    · rw [show processSources fd cs (src :: rest) =
        (processSource fd cs src).bind (fun a =>
          (processSources fd cs rest).bind (fun b => pure (a ++ b))) from rfl,
        processSource_some hr, hms']
      rfl
    · rw [List.map_append, hnames, sourceMatrices_noSec hsec]
      rfl

/-- C7: an independent-mode config with N sources, all resolvable and none
with a secondary-axis selection, yields exactly N matrices in source
order, named "{fileName} - {sheetName}". -/
theorem claim_C7 (fd : List FileData) (cs : Selections) (cfg : Config)
    (hm : cfg.merge = false)
    (hres : ∀ src ∈ cfg.sources, ∃ sheet, resolveSheet fd src = .ok (some sheet))
    (hnosec : ∀ src ∈ cfg.sources,
      optTruthy (getSel cs (selKey src)).secondaryXAxis = false) :
    ∃ ms, computeMatrices fd cs [cfg] = .ok ms ∧
      ms.length = cfg.sources.length ∧
      ms.map Matrix.name =
        cfg.sources.map (fun src => src.fileName ++ " - " ++ src.sheetName) := by
  obtain ⟨ms, hms, hnames⟩ := processSources_names cfg.sources hres hnosec
  refine ⟨ms, ?_, ?_, hnames⟩
  · rw [computeMatrices_single]
    unfold processConfig
    rw [hm, if_neg Bool.false_ne_true]
    exact hms
  · have := congrArg List.length hnames
    simpa using this

/-- Witness for C7 at the Scenario A input. -/
theorem claim_C7_witness :
    (cfgA.merge = false ∧
      (∀ src ∈ cfgA.sources, ∃ sheet, resolveSheet fdA src = .ok (some sheet)) ∧
      (∀ src ∈ cfgA.sources,
        optTruthy (getSel csA (selKey src)).secondaryXAxis = false)) ∧
    (∃ ms, computeMatrices fdA csA [cfgA] = .ok ms ∧
      ms.length = cfgA.sources.length ∧
      ms.map Matrix.name =
        cfgA.sources.map (fun src => src.fileName ++ " - " ++ src.sheetName)) :=
  ⟨⟨rfl, fun src hs => ⟨sheetA, by
      rw [show cfgA.sources = [srcA] from rfl, List.mem_singleton] at hs
      subst hs
      rfl⟩,
    fun src hs => by
      rw [show cfgA.sources = [srcA] from rfl, List.mem_singleton] at hs
      subst hs
      rfl⟩,
    claim_C7 fdA csA cfgA rfl
      (fun src hs => ⟨sheetA, by
        rw [show cfgA.sources = [srcA] from rfl, List.mem_singleton] at hs
        subst hs
        rfl⟩)
      (fun src hs => by
        rw [show cfgA.sources = [srcA] from rfl, List.mem_singleton] at hs
        subst hs
        rfl)⟩

/-! ### Stale references -/

theorem resolvedSheets_skip {fd : List FileData} {bad : Source}
    (hnone : resolveSheet fd bad = .ok none) (l1 l2 : List Source) :
    resolvedSheets fd (l1 ++ bad :: l2) = resolvedSheets fd (l1 ++ l2) := by
  induction l1 with
  | nil =>
    show (resolveSheet fd bad).bind _ = _
    rw [hnone]
    rfl
  | cons a l1 ih =>
    simp only [List.cons_append]
    show (resolveSheet fd a).bind _ = (resolveSheet fd a).bind _
    cases resolveSheet fd a with
    | error e => rfl
    | ok o =>
      cases o with
      | none =>
        show resolvedSheets fd (l1 ++ bad :: l2) = resolvedSheets fd (l1 ++ l2)
        exact ih
      | some sheet =>
        show (resolvedSheets fd (l1 ++ bad :: l2)).bind _ =
          (resolvedSheets fd (l1 ++ l2)).bind _
        rw [ih]

theorem resolvedSheets_sources_mem {fd : List FileData} :
    ∀ {srcs : List Source} {pairs : List (Source × Sheet)},
      resolvedSheets fd srcs = .ok pairs → ∀ p ∈ pairs, p.1 ∈ srcs := by
  intro srcs
  induction srcs with
  | nil =>
    intro pairs h p hp
    cases h
    exact absurd hp (List.not_mem_nil p)
  | cons src rest ih =>
    intro pairs h p hp
    rw [show resolvedSheets fd (src :: rest) =
      (resolveSheet fd src).bind (fun o => match o with
        | none => resolvedSheets fd rest
        | some sheet => (resolvedSheets fd rest).bind
            (fun r => pure ((src, sheet) :: r))) from rfl] at h
    obtain ⟨o, ho, h2⟩ := exceptBind_ok h
    cases o with
    | none => exact List.mem_cons_of_mem _ (ih h2 p hp)
    | some sheet =>
      obtain ⟨r, hr, h3⟩ := exceptBind_ok h2
      cases h3
      rcases List.mem_cons.mp hp with rfl | hp'
      · exact List.mem_cons_self _ _
      · exact List.mem_cons_of_mem _ (ih hr p hp')

theorem sCandidates_nil_of_no_sec {cs : Selections} {pairs : List (Source × Sheet)}
    (h : ∀ p ∈ pairs, optTruthy (getSel cs (selKey p.1)).secondaryXAxis = false) :
    sCandidates cs pairs = [] := by
  unfold sCandidates
  rw [List.flatten_eq_nil_iff]
  intro l hl
  obtain ⟨p, hp, rfl⟩ := List.mem_map.mp hl
  rw [List.filterMap_eq_nil_iff]
  intro row hrow
  show sTruthy (if optTruthy (getSel cs (selKey p.1)).secondaryXAxis = true then
    some (cellStr row (getSel cs (selKey p.1)).secondaryXAxis) else none) = none
  rw [h p hp, if_neg Bool.false_ne_true]
  rfl

/-- `mergeMatrices` reads the config only through its name and
`mergeHasSec`. -/
theorem mergeMatrices_congr {cs : Selections} {cfg1 cfg2 : Config}
    {pairs : List (Source × Sheet)} (hname : cfg1.name = cfg2.name)
    (hsec : mergeSecX cs cfg1 pairs = mergeSecX cs cfg2 pairs) :
    mergeMatrices cs cfg1 pairs = mergeMatrices cs cfg2 pairs := by
  unfold mergeMatrices
  rw [hsec, hname]

theorem processConfig_skip {fd : List FileData} {cs : Selections} {bad : Source}
    (hnone : resolveSheet fd bad = .ok none) (name : String) (mg : Bool)
    (l1 l2 : List Source) :
    processConfig fd cs ⟨name, mg, l1 ++ bad :: l2⟩ =
    processConfig fd cs ⟨name, mg, l1 ++ l2⟩ := by
  unfold processConfig
  cases mg with
  | false =>
    simp only [if_neg Bool.false_ne_true]
    show processSources fd cs (l1 ++ bad :: l2) = processSources fd cs (l1 ++ l2)
    induction l1 with
    | nil =>
      show (processSource fd cs bad).bind _ = processSources fd cs l2
      rw [processSource_none hnone]
      show (processSources fd cs l2).bind (fun b => pure ([] ++ b)) =
        processSources fd cs l2
      cases h2 : processSources fd cs l2 with
      | error e => rfl
      | ok b => rfl
    | cons a l1 ih =>
      simp only [List.cons_append]
      show (processSource fd cs a).bind _ = (processSource fd cs a).bind _
      cases processSource fd cs a with
      | error e => rfl
      | ok x =>
        show (processSources fd cs (l1 ++ bad :: l2)).bind _ =
          (processSources fd cs (l1 ++ l2)).bind _
        rw [ih]
  | true =>
    simp only [if_pos rfl]
    unfold processMerge
    rw [show (⟨name, true, l1 ++ bad :: l2⟩ : Config).sources = l1 ++ bad :: l2 from rfl,
      show (⟨name, true, l1 ++ l2⟩ : Config).sources = l1 ++ l2 from rfl,
      resolvedSheets_skip hnone l1 l2]
    cases hp : resolvedSheets fd (l1 ++ l2) with
    | error e => rfl
    | ok pairs =>
      show Except.ok (mergeMatrices cs ⟨name, true, l1 ++ bad :: l2⟩ pairs) =
        Except.ok (mergeMatrices cs ⟨name, true, l1 ++ l2⟩ pairs)
      refine congrArg Except.ok (mergeMatrices_congr rfl ?_)
      unfold mergeSecX mergeHasSec
      simp only [List.any_append, List.any_cons]
      by_cases hA2 : (l1.any (fun src => optTruthy (getSel cs (selKey src)).secondaryXAxis) ||
          l2.any (fun src => optTruthy (getSel cs (selKey src)).secondaryXAxis)) = true
      · rcases Bool.or_eq_true_iff.mp hA2 with h1 | h2
        · rw [h1]
          rfl
        · rw [h2]
          simp
      · rw [Bool.or_eq_true_iff] at hA2
        push_neg at hA2
        obtain ⟨h1, h2⟩ := hA2
        have h1' : l1.any
            (fun src => optTruthy (getSel cs (selKey src)).secondaryXAxis) = false := by
          cases hh : l1.any (fun src => optTruthy (getSel cs (selKey src)).secondaryXAxis)
          · rfl
          · exact absurd hh h1
        have h2' : l2.any
            (fun src => optTruthy (getSel cs (selKey src)).secondaryXAxis) = false := by
          cases hh : l2.any (fun src => optTruthy (getSel cs (selKey src)).secondaryXAxis)
          · rfl
          · exact absurd hh h2
        rw [h1', h2']
        simp only [Bool.false_or, Bool.or_false]
        by_cases hbad : optTruthy (getSel cs (selKey bad)).secondaryXAxis = true
        · rw [hbad]
          simp only [if_true, if_neg Bool.false_ne_true]
          rw [sCandidates_nil_of_no_sec]
          · rfl
          · intro p hp'
            have hmem := resolvedSheets_sources_mem hp p hp'
            rcases List.mem_append.mp hmem with hm1 | hm2
            · have := List.any_eq_false.mp h1' p.1 hm1
              cases hh : optTruthy (getSel cs (selKey p.1)).secondaryXAxis
              · rfl
              · exact absurd hh this
            · have := List.any_eq_false.mp h2' p.1 hm2
              cases hh : optTruthy (getSel cs (selKey p.1)).secondaryXAxis
              · rfl
              · exact absurd hh this
        · have hbad' : optTruthy (getSel cs (selKey bad)).secondaryXAxis = false := by
            cases hh : optTruthy (getSel cs (selKey bad)).secondaryXAxis
            · rfl
            · exact absurd hh hbad
          rw [hbad']

/-- C5 (amended): a source whose file index is valid but whose sheet name
does not resolve is skipped silently — the output equals the output with
that source removed, in both modes and anywhere in the config list.  (An
out-of-range file index instead aborts the whole computation; see the
counterexample.) -/
theorem claim_C5 (fd : List FileData) (cs : Selections) (pre post : List Config)
    (name : String) (mg : Bool) (l1 l2 : List Source) (bad : Source)
    (hnone : resolveSheet fd bad = .ok none) :
    computeMatrices fd cs (pre ++ ⟨name, mg, l1 ++ bad :: l2⟩ :: post) =
    computeMatrices fd cs (pre ++ ⟨name, mg, l1 ++ l2⟩ :: post) := by
  induction pre with
  | nil =>
    simp only [List.nil_append]
    show (processConfig fd cs _).bind _ = (processConfig fd cs _).bind _
    rw [processConfig_skip hnone name mg l1 l2]
  | cons c pre ih =>
    simp only [List.cons_append]
    show (processConfig fd cs c).bind _ = (processConfig fd cs c).bind _
    cases processConfig fd cs c with
    | error e => rfl
    | ok a =>
      show (computeMatrices fd cs (pre ++ _ :: post)).bind _ =
        (computeMatrices fd cs (pre ++ _ :: post)).bind _
      rw [ih]

/-- C5 counterexample: a stale FILE reference is not skipped: with sources
[srcA, srcBad] (srcBad's file index 5 does not exist) the whole computation
throws (`error`), and the matrix the resolvable source srcA alone would
contribute (second conjunct) is lost — contradicting "never fails and still
produces the remaining matrices". -/
theorem claim_C5_cex :
    computeMatrices fdA csA [cfgE] = .error () ∧
    computeMatrices fdA csA [cfgEonly] = .ok [matA] :=
  ⟨rfl, rfl⟩

/-- Witness for C5: dropping a valid-index stale-sheet source does not
change the output. -/
theorem claim_C5_witness :
    resolveSheet fdA srcGhost = .ok none ∧
    computeMatrices fdA csA ([] ++ ⟨"W", false, [srcA] ++ srcGhost :: []⟩ :: []) =
      computeMatrices fdA csA ([] ++ ⟨"W", false, [srcA] ++ []⟩ :: []) :=
  ⟨rfl, claim_C5 fdA csA [] [] "W" false [srcA] [] srcGhost rfl⟩

/-! ### Merge mode with a secondary axis -/

theorem getD_map_matrix {S : List String} {f : String → Matrix} {k : Nat}
    (hk : k < S.length) : (S.map f).getD k defMatrix = f (S.getD k "") := by
  rw [List.getD_eq_getElem?_getD, List.getElem?_eq_getElem (by simpa using hk),
    List.getElem_map, List.getD_eq_getElem?_getD, List.getElem?_eq_getElem hk]
  rfl

/-- Secondary labels collected in merge mode are never empty. -/
theorem mergeSecX_ne_empty {cs : Selections} {cfg : Config}
    {pairs : List (Source × Sheet)} {v : String}
    (hv : v ∈ mergeSecX cs cfg pairs) : v ≠ "" := by
  unfold mergeSecX at hv
  split at hv
  · rw [mem_sortedValues] at hv
    exact (mem_sCandidates.mp hv).choose_spec.2.choose_spec.2.2
  · exact absurd hv (List.not_mem_nil v)

/-- C2: in merge mode with a secondary axis on at least one source and a
non-empty union of secondary values, the output is one matrix per
secondary value `s`, named "{config.name} - {s}", whose cell `(i, j)` is 1
iff some resolved source has a row matching trimmed Y, X and secondary
`s`; rows of sources without a truthy secondary selection have secondary
value `null` and so never match any `s`. -/
theorem claim_C2 (fd : List FileData) (cs : Selections) (cfg : Config)
    (pairs : List (Source × Sheet)) (hm : cfg.merge = true)
    (hp : resolvedSheets fd cfg.sources = .ok pairs)
    (hS : mergeSecX cs cfg pairs ≠ []) :
    ∃ ms, computeMatrices fd cs [cfg] = .ok ms ∧
      ms.length = (mergeSecX cs cfg pairs).length ∧
      (∀ k, k < ms.length →
        (ms.getD k defMatrix).name =
          cfg.name ++ " - " ++ ((mergeSecX cs cfg pairs).getD k "")) ∧
      (∀ k, k < ms.length → ∀ i j,
        i < (ms.getD k defMatrix).yAxis.length →
        j < (ms.getD k defMatrix).xAxis.length →
          (cellAt (ms.getD k defMatrix).data i j = 1 ↔
            ∃ p ∈ pairs, ∃ row ∈ p.2.data,
              yValOf cs p.1 row = (ms.getD k defMatrix).yAxis.getD i "" ∧
              xValOf cs p.1 row = (ms.getD k defMatrix).xAxis.getD j "" ∧
              sValOf cs p.1 row = some ((mergeSecX cs cfg pairs).getD k ""))) ∧
      (∀ p ∈ pairs, optTruthy (getSel cs (selKey p.1)).secondaryXAxis = false →
        ∀ row ∈ p.2.data, sValOf cs p.1 row = none) := by
  have hout : computeMatrices fd cs [cfg] = .ok (mergeMatrices cs cfg pairs) := by
    rw [computeMatrices_single]
    unfold processConfig
    rw [hm, if_pos rfl]
    exact processMerge_ok hp
  have hmap : mergeMatrices cs cfg pairs = (mergeSecX cs cfg pairs).map (fun secX =>
      { name := cfg.name ++ " - " ++ secX
        yAxis := mergeYAxis cs pairs
        xAxis := mergeXAxis cs pairs
        data := markSec cs (mergeYAxis cs pairs) (mergeXAxis cs pairs) secX pairs
          (zeroGrid (mergeYAxis cs pairs) (mergeXAxis cs pairs)) }) := by
    unfold mergeMatrices
    rw [if_pos (List.length_pos.mpr hS)]
  refine ⟨_, by rw [hout, hmap], by rw [List.length_map], ?_, ?_, ?_⟩
  · intro k hk
    rw [List.length_map] at hk
    rw [getD_map_matrix hk]
  · intro k hk i j hi hj
    rw [List.length_map] at hk
    rw [getD_map_matrix hk] at hi hj ⊢
    simp only at hi hj ⊢
    rw [markSec, @cellAt_built cs (condYXS cs ((mergeSecX cs cfg pairs).getD k ""))
      pairs (mergeYAxis cs pairs) (mergeXAxis cs pairs) rfl rfl i j hi hj]
    constructor
    · rintro ⟨p, hpm, row, hrow, hc, hy, hx⟩
      refine ⟨p, hpm, row, hrow, hy, hx, ?_⟩
      simp only [condYXS, Bool.and_eq_true, beq_iff_eq] at hc
      exact hc.2
    · rintro ⟨p, hpm, row, hrow, hy, hx, hsv⟩
      refine ⟨p, hpm, row, hrow, ?_, hy, hx⟩
      have hyne : yValOf cs p.1 row ≠ "" := by
        rw [hy]
        exact yAxis_ne_empty (getD_mem_of_lt hi)
      have hxne : xValOf cs p.1 row ≠ "" := by
        rw [hx]
        exact xAxis_ne_empty (getD_mem_of_lt hj)
      simp [condYXS, hyne, hxne, hsv]
  · intro p hpm hfalse row hrow
    show (if optTruthy (getSel cs (selKey p.1)).secondaryXAxis = true then
      some (cellStr row (getSel cs (selKey p.1)).secondaryXAxis) else none) = none
    rw [hfalse, if_neg Bool.false_ne_true]

/-- Witness for C2 at the Scenario-B input. -/
theorem claim_C2_witness :
    (cfgB.merge = true ∧ resolvedSheets fdB cfgB.sources = .ok pairsB ∧
      mergeSecX csB cfgB pairsB ≠ []) ∧
    (∃ ms, computeMatrices fdB csB [cfgB] = .ok ms ∧
      ms.length = (mergeSecX csB cfgB pairsB).length ∧
      (∀ k, k < ms.length →
        (ms.getD k defMatrix).name =
          cfgB.name ++ " - " ++ ((mergeSecX csB cfgB pairsB).getD k "")) ∧
      (∀ k, k < ms.length → ∀ i j,
        i < (ms.getD k defMatrix).yAxis.length →
        j < (ms.getD k defMatrix).xAxis.length →
          (cellAt (ms.getD k defMatrix).data i j = 1 ↔
            ∃ p ∈ pairsB, ∃ row ∈ p.2.data,
              yValOf csB p.1 row = (ms.getD k defMatrix).yAxis.getD i "" ∧
              xValOf csB p.1 row = (ms.getD k defMatrix).xAxis.getD j "" ∧
              sValOf csB p.1 row = some ((mergeSecX csB cfgB pairsB).getD k ""))) ∧
      (∀ p ∈ pairsB, optTruthy (getSel csB (selKey p.1)).secondaryXAxis = false →
        ∀ row ∈ p.2.data, sValOf csB p.1 row = none)) :=
  ⟨⟨rfl, rfl, by
      rw [show mergeSecX csB cfgB pairsB = ["Eng", "HR"] from rfl]
      exact List.cons_ne_nil _ _⟩,
    claim_C2 fdB csB cfgB pairsB rfl rfl (by
      rw [show mergeSecX csB cfgB pairsB = ["Eng", "HR"] from rfl]
      exact List.cons_ne_nil _ _)⟩

/-! ### Determinism and row-order insensitivity -/

theorem getElem?_forall₂ {α β : Type} {R : α → β → Prop} :
    ∀ {l1 : List α} {l2 : List β}, List.Forall₂ R l1 l2 → ∀ i : Nat,
      (l1[i]? = none ∧ l2[i]? = none) ∨
      (∃ a b, l1[i]? = some a ∧ l2[i]? = some b ∧ R a b) := by
  intro l1 l2 h
  induction h with
  | nil => intro i; left; simp
  | cons hR hrest ih =>
    intro i
    cases i with
    | zero => exact Or.inr ⟨_, _, by simp, by simp, hR⟩
    | succ k =>
      simp only [List.getElem?_cons_succ]
      exact ih k

theorem find?_sheetPerm {n : String} :
    ∀ {ss ss' : List Sheet}, List.Forall₂ SheetPerm ss ss' →
      (ss.find? (fun s => s.name == n) = none ∧
        ss'.find? (fun s => s.name == n) = none) ∨
      (∃ sh sh', ss.find? (fun s => s.name == n) = some sh ∧
        ss'.find? (fun s => s.name == n) = some sh' ∧ SheetPerm sh sh') := by
  intro ss ss' h
  induction h with
  | nil => exact Or.inl ⟨rfl, rfl⟩
  | cons hR hrest ih =>
    rename_i a b as bs
    by_cases hname : (a.name == n) = true
    · right
      refine ⟨a, b, List.find?_cons_of_pos _ hname, List.find?_cons_of_pos _ ?_, hR⟩
      rw [← hR.1]
      exact hname
    · have hname' : (b.name == n) = false := by
        rw [← hR.1]
        cases hh : (a.name == n)
        · rfl
        · exact absurd hh hname
      have hnameF : (a.name == n) = false := by
        cases hh : (a.name == n)
        · rfl
        · exact absurd hh hname
      rcases ih with ⟨h1, h2⟩ | ⟨sh, sh', h1, h2, hp⟩
      · left
        rw [List.find?_cons_of_neg _ (by simp [hnameF]),
          List.find?_cons_of_neg _ (by simp [hname'])]
        exact ⟨h1, h2⟩
      · right
        rw [List.find?_cons_of_neg _ (by simp [hnameF]),
          List.find?_cons_of_neg _ (by simp [hname'])]
        exact ⟨sh, sh', h1, h2, hp⟩

theorem resolveSheet_perm {fd fd' : List FileData} (h : FilesPerm fd fd')
    (src : Source) :
    (resolveSheet fd src = .error () ∧ resolveSheet fd' src = .error ()) ∨
    (resolveSheet fd src = .ok none ∧ resolveSheet fd' src = .ok none) ∨
    (∃ sh sh', resolveSheet fd src = .ok (some sh) ∧
      resolveSheet fd' src = .ok (some sh') ∧ SheetPerm sh sh') := by
  rcases getElem?_forall₂ h src.fileIndex with ⟨h1, h2⟩ | ⟨f, f', h1, h2, hf⟩
  · have e1 : resolveSheet fd src = .error () := by
      unfold resolveSheet
      rw [h1]
    have e2 : resolveSheet fd' src = .error () := by
      unfold resolveSheet
      rw [h2]
    exact Or.inl ⟨e1, e2⟩
  · have e1 : resolveSheet fd src =
        .ok (f.sheets.find? (fun s => s.name == src.sheetName)) := by
      unfold resolveSheet
      rw [h1]
    have e2 : resolveSheet fd' src =
        .ok (f'.sheets.find? (fun s => s.name == src.sheetName)) := by
      unfold resolveSheet
      rw [h2]
    rcases @find?_sheetPerm src.sheetName _ _ hf.2 with ⟨g1, g2⟩ | ⟨sh, sh', g1, g2, hp⟩
    · exact Or.inr (Or.inl ⟨by rw [e1, g1], by rw [e2, g2]⟩)
    · exact Or.inr (Or.inr ⟨sh, sh', by rw [e1, g1], by rw [e2, g2], hp⟩)

theorem resolvedSheets_perm {fd fd' : List FileData} (h : FilesPerm fd fd') :
    ∀ srcs : List Source,
      (resolvedSheets fd srcs = .error () ∧ resolvedSheets fd' srcs = .error ()) ∨
      (∃ ps ps', resolvedSheets fd srcs = .ok ps ∧
        resolvedSheets fd' srcs = .ok ps' ∧ List.Forall₂ PairPerm ps ps') := by
  intro srcs
  induction srcs with
  | nil => exact Or.inr ⟨[], [], rfl, rfl, List.Forall₂.nil⟩
  | cons src rest ih =>
    rcases resolveSheet_perm h src with ⟨h1, h2⟩ | ⟨h1, h2⟩ | ⟨sh, sh', h1, h2, hsp⟩
    · left
      constructor
      · show (resolveSheet fd src).bind _ = _
        rw [h1]
        rfl
      · show (resolveSheet fd' src).bind _ = _
        rw [h2]
        rfl
    · have e1 : resolvedSheets fd (src :: rest) = resolvedSheets fd rest := by
        show (resolveSheet fd src).bind _ = _
        rw [h1]
        rfl
      have e2 : resolvedSheets fd' (src :: rest) = resolvedSheets fd' rest := by
        show (resolveSheet fd' src).bind _ = _
        rw [h2]
        rfl
      rw [e1, e2]
      exact ih
    · have e1 : resolvedSheets fd (src :: rest) =
          (resolvedSheets fd rest).bind (fun r => pure ((src, sh) :: r)) := by
        show (resolveSheet fd src).bind _ = _
        rw [h1]
        rfl
      have e2 : resolvedSheets fd' (src :: rest) =
          (resolvedSheets fd' rest).bind (fun r => pure ((src, sh') :: r)) := by
        show (resolveSheet fd' src).bind _ = _
        rw [h2]
        rfl
      rw [e1, e2]
      rcases ih with ⟨g1, g2⟩ | ⟨ps, ps', g1, g2, hpp⟩
      · left
        rw [g1, g2]
        exact ⟨rfl, rfl⟩
      · right
        rw [g1, g2]
        exact ⟨(src, sh) :: ps, (src, sh') :: ps', rfl, rfl,
          List.Forall₂.cons ⟨rfl, hsp⟩ hpp⟩

theorem yCandidates_perm {cs : Selections} {ps ps' : List (Source × Sheet)}
    (h : List.Forall₂ PairPerm ps ps') :
    List.Perm (yCandidates cs ps) (yCandidates cs ps') := by
  unfold yCandidates
  apply List.Perm.flatten_congr
  rw [List.forall₂_map_left_iff, List.forall₂_map_right_iff]
  refine h.imp ?_
  rintro p p' ⟨h1, -, -, hd⟩
  rw [← h1]
  exact (hd.map _).filter _

theorem xCandidates_perm {cs : Selections} {ps ps' : List (Source × Sheet)}
    (h : List.Forall₂ PairPerm ps ps') :
    List.Perm (xCandidates cs ps) (xCandidates cs ps') := by
  unfold xCandidates
  apply List.Perm.flatten_congr
  rw [List.forall₂_map_left_iff, List.forall₂_map_right_iff]
  refine h.imp ?_
  rintro p p' ⟨h1, -, -, hd⟩
  rw [← h1]
  exact (hd.map _).filter _

theorem sCandidates_perm {cs : Selections} {ps ps' : List (Source × Sheet)}
    (h : List.Forall₂ PairPerm ps ps') :
    List.Perm (sCandidates cs ps) (sCandidates cs ps') := by
  unfold sCandidates
  apply List.Perm.flatten_congr
  rw [List.forall₂_map_left_iff, List.forall₂_map_right_iff]
  refine h.imp ?_
  rintro p p' ⟨h1, -, -, hd⟩
  rw [← h1]
  exact hd.filterMap _

theorem setCell_comm (g : List (List Nat)) (i j i' j' : Nat) :
    setCell (setCell g i j) i' j' = setCell (setCell g i' j') i j := by
  unfold setCell
  by_cases hii : i = i'
  · subst hii
    rcases Nat.lt_or_ge i g.length with hi | hi
    · by_cases hjj : j = j'
      · subst hjj
        rfl
      · have hr : ∀ r : List Nat, (g.set i r).getD i [] = r := fun r => by
          rw [List.getD_eq_getElem?_getD, List.getElem?_set_self',
            List.getElem?_eq_getElem hi]
          rfl
        rw [hr, hr, List.set_set, List.set_set, List.set_comm _ _ _ hjj]
    · have hg : ∀ r : List Nat, g.set i r = g := fun r => List.set_eq_of_length_le hi
      simp only [hg]
  · have h1 : ∀ r : List Nat, (g.set i r).getD i' [] = g.getD i' [] := fun r => by
      rw [List.getD_eq_getElem?_getD, List.getElem?_set_ne hii,
        ← List.getD_eq_getElem?_getD]
    have h2 : ∀ r : List Nat, (g.set i' r).getD i [] = g.getD i [] := fun r => by
      rw [List.getD_eq_getElem?_getD, List.getElem?_set_ne (Ne.symm hii),
        ← List.getD_eq_getElem?_getD]
    rw [h1, h2, List.set_comm _ _ _ hii]

theorem markRow_comm (ys xs : List String) (y x y' x' : String)
    (g : List (List Nat)) :
    markRow ys xs y' x' (markRow ys xs y x g) =
    markRow ys xs y x (markRow ys xs y' x' g) := by
  unfold markRow
  by_cases h1 : ys.indexOf y < ys.length ∧ xs.indexOf x < xs.length
  · by_cases h2 : ys.indexOf y' < ys.length ∧ xs.indexOf x' < xs.length
    · simp only [if_pos h1, if_pos h2]
      exact setCell_comm g _ _ _ _
    · simp only [if_pos h1, if_neg h2]
  · by_cases h2 : ys.indexOf y' < ys.length ∧ xs.indexOf x' < xs.length
    · simp only [if_neg h1, if_pos h2]
    · simp only [if_neg h1, if_neg h2]

theorem markRows_perm (cs : Selections) (ys xs : List String)
    (cond : Source → Row → Bool) (src : Source) {rows rows' : List Row}
    (hp : List.Perm rows rows') (g : List (List Nat)) :
    rows.foldl (fun g row =>
      if cond src row then markRow ys xs (yValOf cs src row) (xValOf cs src row) g
      else g) g =
    rows'.foldl (fun g row =>
      if cond src row then markRow ys xs (yValOf cs src row) (xValOf cs src row) g
      else g) g := by
  apply hp.foldl_eq'
  intro r1 h1 r2 h2 z
  by_cases c1 : cond src r1 = true
  · by_cases c2 : cond src r2 = true
    · simp only [if_pos c1, if_pos c2]
      exact markRow_comm ys xs _ _ _ _ z
    · simp only [if_pos c1, if_neg c2]
  · by_cases c2 : cond src r2 = true
    · simp only [if_neg c1, if_pos c2]
    · simp only [if_neg c1, if_neg c2]

theorem markPairs_perm (cs : Selections) (ys xs : List String)
    (cond : Source → Row → Bool) :
    ∀ {ps ps' : List (Source × Sheet)}, List.Forall₂ PairPerm ps ps' →
      ∀ g, markPairs cs ys xs cond ps g = markPairs cs ys xs cond ps' g := by
  intro ps ps' h
  induction h with
  | nil => intro g; rfl
  | cons hR hrest ih =>
    intro g
    rename_i p p' ps1 ps1'
    simp only [markPairs, List.foldl_cons]
    obtain ⟨h1, -, -, hd⟩ := hR
    have hstep : p.2.data.foldl (fun g row =>
        if cond p.1 row then markRow ys xs (yValOf cs p.1 row) (xValOf cs p.1 row) g
        else g) g =
      p'.2.data.foldl (fun g row =>
        if cond p'.1 row then markRow ys xs (yValOf cs p'.1 row) (xValOf cs p'.1 row) g
        else g) g := by
      rw [← h1]
      exact markRows_perm cs ys xs cond p.1 hd g
    rw [hstep]
    exact ih _

theorem mergeMatrices_perm {cs : Selections} {cfg : Config}
    {ps ps' : List (Source × Sheet)} (h : List.Forall₂ PairPerm ps ps') :
    mergeMatrices cs cfg ps = mergeMatrices cs cfg ps' := by
  have hy : mergeYAxis cs ps = mergeYAxis cs ps' :=
    sortedValues_eq_of_perm (yCandidates_perm h)
  have hx : mergeXAxis cs ps = mergeXAxis cs ps' :=
    sortedValues_eq_of_perm (xCandidates_perm h)
  have hs : mergeSecX cs cfg ps = mergeSecX cs cfg ps' := by
    unfold mergeSecX
    rw [sortedValues_eq_of_perm (sCandidates_perm h)]
  have hmAll : ∀ ys xs g, markAll cs ys xs ps g = markAll cs ys xs ps' g :=
    fun ys xs g => markPairs_perm cs ys xs (condYX cs) h g
  have hmSec : ∀ ys xs secX g, markSec cs ys xs secX ps g = markSec cs ys xs secX ps' g :=
    fun ys xs secX g => markPairs_perm cs ys xs (condYXS cs secX) h g
  unfold mergeMatrices
  rw [hy, hx, hs]
  simp only [hmAll, hmSec]

theorem sourceMatrices_perm {cs : Selections} {src : Source} {sheet sheet' : Sheet}
    (hsp : SheetPerm sheet sheet') :
    sourceMatrices cs src sheet = sourceMatrices cs src sheet' := by
  have hf : List.Forall₂ PairPerm [(src, sheet)] [(src, sheet')] :=
    List.Forall₂.cons ⟨rfl, hsp⟩ List.Forall₂.nil
  have hy : sourceYAxis cs src sheet = sourceYAxis cs src sheet' :=
    sortedValues_eq_of_perm (yCandidates_perm hf)
  have hx : sourceXAxis cs src sheet = sourceXAxis cs src sheet' :=
    sortedValues_eq_of_perm (xCandidates_perm hf)
  have hs : sourceSecX cs src sheet = sourceSecX cs src sheet' := by
    unfold sourceSecX
    rw [sortedValues_eq_of_perm (sCandidates_perm hf)]
  have hmAll : ∀ ys xs g, markAll cs ys xs [(src, sheet)] g =
      markAll cs ys xs [(src, sheet')] g :=
    fun ys xs g => markPairs_perm cs ys xs (condYX cs) hf g
  have hmSec : ∀ ys xs secX g, markSec cs ys xs secX [(src, sheet)] g =
      markSec cs ys xs secX [(src, sheet')] g :=
    fun ys xs secX g => markPairs_perm cs ys xs (condYXS cs secX) hf g
  unfold sourceMatrices
  rw [hy, hx, hs]
  simp only [hmAll, hmSec]

theorem processSources_filesPerm {fd fd' : List FileData} (h : FilesPerm fd fd')
    (cs : Selections) :
    ∀ srcs : List Source, processSources fd cs srcs = processSources fd' cs srcs := by
  intro srcs
  induction srcs with
  | nil => rfl
  | cons src rest ih =>
    have hsrc : processSource fd cs src = processSource fd' cs src := by
      rcases resolveSheet_perm h src with ⟨h1, h2⟩ | ⟨h1, h2⟩ | ⟨sh, sh', h1, h2, hsp⟩
      · show (resolveSheet fd src).bind _ = (resolveSheet fd' src).bind _
        rw [h1, h2]
      · rw [processSource_none h1, processSource_none h2]
      · rw [processSource_some h1, processSource_some h2, sourceMatrices_perm hsp]
    show (processSource fd cs src).bind _ = (processSource fd' cs src).bind _
    rw [hsrc, ih]

theorem processConfig_filesPerm {fd fd' : List FileData} (h : FilesPerm fd fd')
    (cs : Selections) (cfg : Config) :
    processConfig fd cs cfg = processConfig fd' cs cfg := by
  unfold processConfig
  split
  · unfold processMerge
    rcases resolvedSheets_perm h cfg.sources with ⟨h1, h2⟩ | ⟨ps, ps', h1, h2, hpp⟩
    · show (resolvedSheets fd cfg.sources).bind _ = (resolvedSheets fd' cfg.sources).bind _
      rw [h1, h2]
    · show (resolvedSheets fd cfg.sources).bind _ = (resolvedSheets fd' cfg.sources).bind _
      rw [h1, h2]
      show Except.ok (mergeMatrices cs cfg ps) = Except.ok (mergeMatrices cs cfg ps')
      rw [mergeMatrices_perm hpp]
  · exact processSources_filesPerm h cs cfg.sources

theorem computeMatrices_filesPerm {fd fd' : List FileData} (h : FilesPerm fd fd')
    (cs : Selections) :
    ∀ mc : List Config, computeMatrices fd cs mc = computeMatrices fd' cs mc := by
  intro mc
  induction mc with
  | nil => rfl
  | cons cfg rest ih =>
    show (processConfig fd cs cfg).bind _ = (processConfig fd' cs cfg).bind _
    rw [processConfig_filesPerm h cs cfg, ih]

/-- C8: `computeMatrices` is deterministic (a pure function of its inputs)
and insensitive to the order of the rows of any input sheet: permuting
rows yields exactly the same output matrices. -/
theorem claim_C8 (fd fd' : List FileData) (cs : Selections) (mc : List Config)
    (h : FilesPerm fd fd') :
    computeMatrices fd cs mc = computeMatrices fd cs mc ∧
    computeMatrices fd cs mc = computeMatrices fd' cs mc :=
  ⟨rfl, computeMatrices_filesPerm h cs mc⟩

/-- Witness for C8: reversing Scenario A's rows leaves the output
unchanged. -/
theorem claim_C8_witness :
    FilesPerm fdA fdA2 ∧
    (computeMatrices fdA csA [cfgA] = computeMatrices fdA csA [cfgA] ∧
     computeMatrices fdA csA [cfgA] = computeMatrices fdA2 csA [cfgA]) :=
  ⟨List.Forall₂.cons
      ⟨rfl, List.Forall₂.cons ⟨rfl, rfl, by decide⟩ List.Forall₂.nil⟩
      List.Forall₂.nil,
    claim_C8 fdA fdA2 csA [cfgA]
      (List.Forall₂.cons
        ⟨rfl, List.Forall₂.cons ⟨rfl, rfl, by decide⟩ List.Forall₂.nil⟩
        List.Forall₂.nil)⟩

end MatrixProc
